import Mathlib

/-!
Verification development for the qms stack-trace symbolization pipeline.

The Python sources are shallowly embedded over explicit data:
  - text lines are modelled as Lean strings (a file is a list of lines);
  - the filesystem, the external addr2line process and the readelf-based
    helpers are oracles passed in as function parameters;
  - regular-expression matching from the sources is hand-compiled to
    character-list scanners with the same greedy/lazy backtracking behaviour.
-/

namespace QMS

/-! Python-style character and string helpers. -/

/-- The whitespace class used by Python regex and str.strip family. -/
def pyWhitespace (c : Char) : Bool :=
  c = ' ' || c = '\t' || c = '\n' || c = '\r' || c = '\x0b' || c = '\x0c'

/-- Hexadecimal digit class 0-9a-fA-F. -/
def isHexChar (c : Char) : Bool :=
  c.isDigit || (97 ≤ c.toNat && c.toNat ≤ 102) || (65 ≤ c.toNat && c.toNat ≤ 70)

/-- Remove trailing characters satisfying bad from a character list. -/
def rstripChars (bad : Char → Bool) (s : List Char) : List Char :=
  (s.reverse.dropWhile bad).reverse

/-- Python rstrip of a trailing run of newline characters only. -/
def rstripNL (s : List Char) : List Char :=
  rstripChars (fun c => c = '\n') s

/-- Python str.lstrip with the default whitespace set. -/
def pyLStrip (s : List Char) : List Char := s.dropWhile pyWhitespace

/-- Python str.strip with the default whitespace set. -/
def pyStrip (s : List Char) : List Char :=
  rstripChars pyWhitespace (s.dropWhile pyWhitespace)

/-- Whether s begins with pat. -/
def listStartsWith : List Char → List Char → Bool
  | _, [] => true
  | [], _ :: _ => false
  | c :: s, p :: ps => c = p && listStartsWith s ps

/-- Whether pat occurs as a contiguous substring of s. -/
def containsSub (pat : List Char) : List Char → Bool
  | [] => listStartsWith [] pat
  | c :: t => listStartsWith (c :: t) pat || containsSub pat t

/-- Decimal value of a digit run (regex group of a frame index). -/
def natOfDigits (ds : List Char) : Nat :=
  ds.foldl (fun n c => 10 * n + (c.toNat - 48)) 0

/-- Truthiness of an optional Python string: None and the empty string are falsy. -/
def optTruthy : Option String → Bool
  | none => false
  | some s => !s.isEmpty

/-! Frame parser (src/qms3/parser.py).

The frame-line regex is
  caret whitespace-star, hash, digits, whitespace-plus, 0x hex-plus, rest;
all quantifiers are greedy and no backtracking can change the outcome,
so maximal-munch scanning reproduces it exactly. -/

structure FrameMatch where
  frame_index : Nat
  address : List Char
  rest : List Char
deriving DecidableEq

/-- Match of the frame-line pattern of parser.py at the start of a line. -/
def matchFrameLine (s : List Char) : Option FrameMatch :=
  match s.dropWhile pyWhitespace with
  | '#' :: t =>
    let digits := t.takeWhile Char.isDigit
    let t1 := t.dropWhile Char.isDigit
    if digits.isEmpty then none
    else
      let ws := t1.takeWhile pyWhitespace
      let t2 := t1.dropWhile pyWhitespace
      if ws.isEmpty then none
      else match t2 with
        | '0' :: 'x' :: t3 =>
          let hex := t3.takeWhile isHexChar
          let t4 := t3.dropWhile isHexChar
          if hex.isEmpty then none
          else some ⟨natOfDigits digits, '0' :: 'x' :: hex, t4.takeWhile (fun c => c ≠ '\n')⟩
        | _ => none
  | _ => none

/-- Characters allowed in the elf-path group: anything but whitespace and a closing parenthesis. -/
def isPathChar (c : Char) : Bool := !(pyWhitespace c) && c ≠ ')'

/-- Optional Build-id group of parser.py: literal (Build-id: then hex-plus then close paren.
The Build-id spelling is matched case-sensitively, as in the source regex. -/
def matchBuildId : List Char → Option (List Char)
  | '(' :: 'B' :: 'u' :: 'i' :: 'l' :: 'd' :: '-' :: 'i' :: 'd' :: ':' :: t =>
    let hex := t.takeWhile isHexChar
    let t1 := t.dropWhile isHexChar
    if hex.isEmpty then none
    else match t1 with
      | ')' :: _ => some hex
      | _ => none
  | _ => none

/-- After the elf-path group: literal plus 0x, hex-plus, close paren, then the
optional whitespace-star Build-id group. Returns the offset digits and build id. -/
def matchAfterPath : List Char → Option (List Char × Option (List Char))
  | '+' :: '0' :: 'x' :: t =>
    let hex := t.takeWhile isHexChar
    let t1 := t.dropWhile isHexChar
    if hex.isEmpty then none
    else match t1 with
      | ')' :: t2 => some (hex, matchBuildId (t2.dropWhile pyWhitespace))
      | _ => none
  | _ => none

/-- Greedy backtracking over the elf-path group: try the longest path body first
(the reversed candidate body is the first argument), handing characters back to
the remainder one at a time, as the regex engine does for a greedy class. -/
def tryPathSplits : List Char → List Char → Option (List Char × List Char × Option (List Char))
  | revBody, rest =>
    match matchAfterPath rest with
    | some (off, bid) => if revBody.isEmpty then none else some (revBody.reverse, off, bid)
    | none =>
      match revBody with
      | [] => none
      | c :: revBody2 => tryPathSplits revBody2 (c :: rest)

structure ElfMatch where
  elf_path : List Char
  offset : List Char
  build_id : Option (List Char)
deriving DecidableEq

/-- Match of the elf-and-buildid pattern of parser.py anchored at the current position. -/
def matchElfAt : List Char → Option ElfMatch
  | '(' :: '/' :: t =>
    let body := t.takeWhile isPathChar
    let rest := t.dropWhile isPathChar
    match tryPathSplits body.reverse rest with
    | some (b, off, bid) => some ⟨'/' :: b, off, bid⟩
    | none => none
  | _ => none

/-- re.search semantics: leftmost starting position that admits a match wins. -/
def searchElf : List Char → Option ElfMatch
  | [] => none
  | c :: t =>
    match matchElfAt (c :: t) with
    | some m => some m
    | none => searchElf t

structure Frame where
  trace_index : Nat
  frame_index : Nat
  address : String
  obj_path : Option String
  obj_offset : Option String
  build_id : Option String
  raw_line : String
deriving DecidableEq

/-- parser.py _parse_frame_line: parse one stack-frame line, or none. -/
def parse_frame_line (line : List Char) (current_trace_index : Nat) : Option Frame :=
  match matchFrameLine line with
  | none => none
  | some fm =>
    let em := searchElf fm.rest
    some
      { trace_index := current_trace_index
        frame_index := fm.frame_index
        address := String.mk fm.address
        obj_path := em.map (fun m => String.mk m.elf_path)
        obj_offset := em.map (fun m => String.mk ('0' :: 'x' :: m.offset))
        build_id := em.bind (fun m => m.build_id.map String.mk)
        raw_line := String.mk (rstripNL line) }

structure StackTrace where
  trace_index : Nat
  frames : List Frame
  preamble : List String
deriving DecidableEq

structure ParseState where
  traces : List StackTrace
  current_trace_index : Int
  current_frames : List Frame
  current_preamble : List String
  pending_preamble : List String
deriving DecidableEq

/-- parser.py flush_current_trace: emit the accumulated trace if it has frames. -/
def flushCurrentTrace (st : ParseState) : ParseState :=
  if st.current_frames.isEmpty then st
  else
    { st with
      traces := st.traces ++
        [⟨st.current_trace_index.toNat, st.current_frames, st.current_preamble⟩]
      current_frames := []
      current_preamble := [] }

/-- One iteration of the loop body of parser.py parse_stack_lines. -/
def parseStep (st : ParseState) (raw_line : String) : ParseState :=
  let line := rstripNL raw_line.data
  let idxArg : Nat := if 0 ≤ st.current_trace_index then st.current_trace_index.toNat else 0
  match parse_frame_line line idxArg with
  | none =>
    if st.current_frames.isEmpty then
      { st with pending_preamble := st.pending_preamble ++ [String.mk line] }
    else st
  | some frame =>
    if frame.frame_index = 0 then
      let st1 := flushCurrentTrace st
      let idx := st1.traces.length
      { st1 with
        current_trace_index := (idx : Int)
        current_preamble := st.pending_preamble
        pending_preamble := []
        current_frames := [{ frame with trace_index := idx }] }
    else if st.current_trace_index < 0 then
      { st with
        current_trace_index := 0
        current_preamble := st.pending_preamble
        pending_preamble := []
        current_frames := st.current_frames ++ [{ frame with trace_index := 0 }] }
    else
      { st with current_frames := st.current_frames ++ [frame] }

/-- parser.py parse_stack_lines over a list of raw lines. -/
def parse_stack_lines (lines : List String) : List StackTrace :=
  (flushCurrentTrace (lines.foldl parseStep ⟨[], -1, [], [], []⟩)).traces

/-- Whether parse_stack_lines treats a line as a frame line (index-independent). -/
def isFrameLine (l : String) : Bool :=
  (matchFrameLine (rstripNL l.data)).isSome

/-! Resolver (src/qms3/resolver.py).

The filesystem is an oracle fs sending a host path to its is_file answer.
Path objects are rendered as plain strings joined with a slash; the rootfs
argument is assumed to carry no trailing slash so that the Path division of
the source and string concatenation agree. The in-memory memo dictionaries
of resolver.py and symbolizer.py cache exactly the value this pure function
computes for the same key, so they are dropped from the model. -/

def lstripSlashes (s : String) : String := String.mk (s.data.dropWhile (fun c => c = '/'))

def joinPath (root rel : String) : String := root ++ "/" ++ rel

/-- resolver.py _resolve_elf: rootfs-joined path first, then the host path as-is. -/
def _resolve_elf (fs : String → Bool) (rootfs : String) (elf_path : String) : Option String :=
  let elf := joinPath rootfs (lstripSlashes elf_path)
  if fs elf then some elf
  else if fs elf_path then some elf_path
  else none

/-- resolver.py _resolve_debug_by_buildid. -/
def _resolve_debug_by_buildid (fs : String → Bool) (debug_root : String) (build_id : String) :
    Option String :=
  if build_id.isEmpty then none
  else
    let bid := String.mk (pyStrip build_id.data)
    if bid.length < 3 then none
    else
      let subdir := String.mk (bid.data.take 2)
      let rest := String.mk (bid.data.drop 2)
      let candidate := joinPath (joinPath debug_root subdir) (rest ++ ".debug")
      if fs candidate then some candidate else none

/-- resolver.py resolve_pair (without the memo dictionary). -/
def resolve_pair (fs : String → Bool) (rootfs debug_root : String)
    (elf_path : String) (build_id : Option String) : Option String × Option String :=
  let real_elf := _resolve_elf fs rootfs elf_path
  let debug_elf :=
    if optTruthy build_id then _resolve_debug_by_buildid fs debug_root (build_id.getD "")
    else none
  (real_elf, debug_elf)

/-- symbolizer.py _resolve_elf_paths (without the memo dictionary). -/
def _resolve_elf_paths (fs : String → Bool) (rootfs debug_root : String) (f : Frame) :
    Option String × Option String :=
  if !optTruthy f.obj_path then (none, none)
  else resolve_pair fs rootfs debug_root (f.obj_path.getD "") f.build_id

/-! addr2line runner (src/qms3/addr2line_runner.py).

The subprocess is an oracle spawn from the argument vector to an optional
process outcome; none stands for a failed launch (the FileNotFoundError and
generic exception handlers of the source, both of which return the empty
dictionary). -/

structure A2LResult where
  frames : List (String × String)
deriving DecidableEq

structure ProcOut where
  returncode : Int
  stdout : List String
deriving DecidableEq

/-- addr2line_runner.py _choose_executable. -/
def _choose_executable (fs : String → Bool) (elf_file : String) (debug_file : Option String)
    (prefer_debug : Bool) : String :=
  match debug_file with
  | some d => if prefer_debug && fs d then d else elf_file
  | none => elf_file

/-- addr2line_runner.py _normalize_addr: 0x prefix, lowercase, no leading zeros. -/
def _normalize_addr (addr : String) : String :=
  let s := pyStrip addr.data
  if s.isEmpty then ""
  else
    let body :=
      match s with
      | '0' :: 'x' :: t => t
      | '0' :: 'X' :: t => t
      | _ => s
    let body2 := body.dropWhile (fun c => c = '0')
    let body3 := if body2.isEmpty then ['0'] else body2
    String.mk ('0' :: 'x' :: body3.map Char.toLower)

/-- Full match of the address-line pattern caret 0x hex-plus dollar. -/
def isAddrLine (s : List Char) : Bool :=
  match s with
  | '0' :: 'x' :: t => !t.isEmpty && t.all isHexChar
  | _ => false

/-- Association-list lookup keyed on the first component. -/
def lookupAssoc {α : Type} (acc : List (String × α)) (k : String) : Option α :=
  (acc.find? (fun p => p.1 = k)).map (fun p => p.2)

/-- Append one pair to the entry of k, which is assumed present or appended last. -/
def assocAppend (acc : List (String × List (String × String))) (k : String)
    (v : String × String) : List (String × List (String × String)) :=
  match acc with
  | [] => [(k, [v])]
  | (k2, vs) :: rest =>
    if k2 = k then (k2, vs ++ [v]) :: rest else (k2, vs) :: assocAppend rest k v

/-- Ensure k has an entry, inserting an empty one at the end if absent. -/
def assocEnsure (acc : List (String × List (String × String))) (k : String) :
    List (String × List (String × String)) :=
  if (acc.find? (fun p => p.1 = k)).isSome then acc else acc ++ [(k, [])]

/-- Extend the entry of k by a list of pairs, dict.setdefault style. -/
def assocExtend (acc : List (String × List (String × String))) (k : String)
    (vs : List (String × String)) : List (String × List (String × String)) :=
  match acc with
  | [] => [(k, vs)]
  | (k2, ws) :: rest =>
    if k2 = k then (k2, ws ++ vs) :: rest else (k2, ws) :: assocExtend rest k vs

/-- The output-splitting loop of run_addr2line_multi: address lines open a block,
every other line is a function name whose following line is its file:line. -/
def parseA2LLines : List String → Option String →
    List (String × List (String × String)) → List (String × List (String × String))
  | [], _, acc => acc
  | l :: rest, current, acc =>
    let line := pyStrip l.data
    if isAddrLine line then
      parseA2LLines rest (some (String.mk line)) (assocEnsure acc (String.mk line))
    else
      match current with
      | none => parseA2LLines rest none acc
      | some cur =>
        let func := if line.isEmpty then "??" else String.mk line
        match rest with
        | fl :: rest2 =>
          let flS := pyStrip fl.data
          let file_line := if flS.isEmpty then "??:0" else String.mk flS
          parseA2LLines rest2 (some cur) (assocAppend acc cur (func, file_line))
        | [] => parseA2LLines [] (some cur) (assocAppend acc cur (func, "??:0"))

/-- Remap raw address blocks through _normalize_addr, extending on collisions. -/
def buildNormalizedMap (raw : List (String × List (String × String))) :
    List (String × List (String × String)) :=
  raw.foldl (fun acc p => assocExtend acc (_normalize_addr p.1) p.2) []

/-- addr2line_runner.py run_addr2line_multi as an association list keyed by the
original address strings (the source returns a dictionary; duplicate input
addresses would produce equal values, so first-match lookup agrees). -/
def run_addr2line_multi (fs : String → Bool) (spawn : List String → Option ProcOut)
    (addrs : List String) (elf_file : String) (debug_file : Option String)
    (prefer_debug : Bool) : List (String × A2LResult) :=
  if addrs.isEmpty then []
  else
    let exe := _choose_executable fs elf_file debug_file prefer_debug
    let cmd := ["addr2line", "-f", "-C", "-i", "-a", "-e", exe] ++ addrs
    match spawn cmd with
    | none => []
    | some proc =>
      if proc.returncode ≠ 0 then []
      else
        let normalized := buildNormalizedMap (parseA2LLines proc.stdout none [])
        addrs.filterMap (fun a =>
          match lookupAssoc normalized (_normalize_addr a) with
          | some frames => if frames.isEmpty then none else some (a, A2LResult.mk frames)
          | none => none)

/-! Symbolizer (src/qms3/symbolizer.py).

The global addr2line result cache is the parameter cache, queried with the
same (real elf, debug elf or empty, address) key as the source; the backend
is an oracle from (real elf, debug elf, batched address list, address) to the
optional per-address result of run_addr2line_multi. Each frame index belongs
to exactly one batched group, so the thread pool fan-out of the source is
order-irrelevant and the result is computed positionally; the final sort by
frame_index is the identity because symbolize_trace numbers frames by their
enumeration position. -/

abbrev A2LCache := String → String → String → Option (List (String × String))

abbrev Backend := String → Option String → List String → String → Option A2LResult

structure SymbolizedFrame where
  trace_index : Nat
  frame_index : Nat
  address : String
  inlines : List (String × String)
  raw_line : String
  obj_path : Option String := none
  obj_offset : Option String := none
  build_id : Option String := none
deriving DecidableEq

structure SymbolizedTrace where
  trace_index : Nat
  frames : List SymbolizedFrame
  preamble : List String
deriving DecidableEq

/-- symbolizer.py _make_unknown_frame. -/
def _make_unknown_frame (f : Frame) (trace_index frame_index : Nat) (with_question : Bool) :
    SymbolizedFrame :=
  { trace_index := trace_index
    frame_index := frame_index
    address := f.address
    inlines := if with_question then [("??", "??:0")] else []
    raw_line := f.raw_line
    obj_path := f.obj_path
    obj_offset := f.obj_offset
    build_id := f.build_id }

/-- How the first pass of symbolize_trace disposes of one frame. -/
inductive Disp where
  | noInfo
  | noElf
  | cached (inl : List (String × String))
  | grouped (ek dk : String) (elf : String) (dbg : Option String) (addr : String)
deriving DecidableEq

/-- First pass of symbolize_trace for one frame: skip info-less frames, resolve
the elf pair, consult the global addr2line cache, else assign to a batch group. -/
def dispOf (fs : String → Bool) (cache : A2LCache) (rootfs debug_root : String) (f : Frame) :
    Disp :=
  if !optTruthy f.obj_path && !optTruthy f.build_id && !optTruthy f.obj_offset then .noInfo
  else
    match _resolve_elf_paths fs rootfs debug_root f with
    | (none, _) => .noElf
    | (some real_elf, debug_elf) =>
      let addr := if optTruthy f.obj_offset then f.obj_offset.getD "" else f.address
      let dk := match debug_elf with | some d => d | none => ""
      match cache real_elf dk addr with
      | some inl => .cached inl
      | none => .grouped real_elf dk real_elf debug_elf addr

/-- Keep the first occurrence of every element, preserving order. -/
def dedupFirstAux (seen : List String) : List String → List String
  | [] => []
  | a :: rest =>
    if seen.contains a then dedupFirstAux seen rest
    else a :: dedupFirstAux (a :: seen) rest

/-- The batched address list of the group keyed (ek, dk): unique addresses of its
frames in first-occurrence order, as the insertion-ordered dict of the source. -/
def groupAddrs (disps : List Disp) (ek dk : String) : List String :=
  dedupFirstAux []
    (disps.filterMap (fun d =>
      match d with
      | .grouped ek2 dk2 _ _ a => if ek2 = ek && dk2 = dk then some a else none
      | _ => none))

/-- The inlines list symbolize_trace ends up attaching for one disposition
(the per-address branch of _symbolize_group for grouped frames). -/
def frameResult (backend : Backend) (disps : List Disp) : Disp → List (String × String)
  | .noInfo => []
  | .noElf => [("??", "??:0")]
  | .cached inl => inl
  | .grouped ek dk elf dbg addr =>
    match backend elf dbg (groupAddrs disps ek dk) addr with
    | none => [("??", "??:0")]
    | some res => if res.frames.isEmpty then [("??", "??:0")] else res.frames

/-- Pair every list element with its position starting at i. -/
def enumFrom {α : Type} (i : Nat) : List α → List (Nat × α)
  | [] => []
  | a :: t => (i, a) :: enumFrom (i + 1) t

/-- symbolizer.py symbolize_trace. -/
def symbolize_trace (fs : String → Bool) (backend : Backend) (cache : A2LCache)
    (trace : StackTrace) (trace_index : Nat) (rootfs debug_root : String) : SymbolizedTrace :=
  let disps := trace.frames.map (dispOf fs cache rootfs debug_root)
  let frames := (enumFrom 0 trace.frames).map (fun p =>
    { trace_index := trace_index
      frame_index := p.1
      address := p.2.address
      inlines := frameResult backend disps (dispOf fs cache rootfs debug_root p.2)
      raw_line := p.2.raw_line
      obj_path := p.2.obj_path
      obj_offset := p.2.obj_offset
      build_id := p.2.build_id : SymbolizedFrame })
  ⟨trace_index, frames, trace.preamble⟩

/-- symbolizer.py symbolize_all. -/
def symbolize_all (fs : String → Bool) (backend : Backend) (cache : A2LCache)
    (traces : List StackTrace) (rootfs debug_root : String) : List SymbolizedTrace :=
  (enumFrom 0 traces).map (fun p => symbolize_trace fs backend cache p.2 p.1 rootfs debug_root)

/-- The backend induced by run_addr2line_multi with prefer_debug, as invoked by
_symbolize_group. -/
def backendOfRunner (fs : String → Bool) (spawn : List String → Option ProcOut) : Backend :=
  fun elf dbg addrs addr => lookupAssoc (run_addr2line_multi fs spawn addrs elf dbg true) addr

/-! Output formatter (src/qms3/output_formatter.py). -/

/-- output_formatter.py _leading_indent. -/
def leading_indent (raw : List Char) : List Char := raw.takeWhile pyWhitespace

/-- The file-line-at-end pattern: colon, a nonempty run of digits or question
marks, optional whitespace, end. Callers pass a stripped string, so a match
exists exactly when the maximal trailing digit-or-question run is nonempty
and preceded by a colon. -/
def fileline_at_end (s : List Char) : Bool :=
  let r := s.reverse
  let run := r.takeWhile (fun c => c.isDigit || c = '?')
  let rest := r.dropWhile (fun c => c.isDigit || c = '?')
  !run.isEmpty && rest.head? = some ':'

/-- output_formatter.py _looks_fully_symbolized. -/
def looks_fully_symbolized (raw : List Char) : Bool :=
  let s := pyStrip raw
  containsSub " in ".data s && fileline_at_end s

/-- output_formatter.py _rewrite_raw_line_with_index. -/
def rewrite_raw_line_with_index (raw : List Char) (new_index : Nat) : List Char :=
  let indent := raw.takeWhile pyWhitespace
  let noMatch := indent ++ ('#' :: (toString new_index).data) ++ (' ' :: pyLStrip raw)
  match raw.dropWhile pyWhitespace with
  | '#' :: t1 =>
    let digits := t1.takeWhile Char.isDigit
    let t2 := t1.dropWhile Char.isDigit
    let sep := t2.takeWhile pyWhitespace
    let rest := t2.dropWhile pyWhitespace
    if digits.isEmpty || sep.isEmpty then noMatch
    else indent ++ ('#' :: (toString new_index).data) ++ sep ++ rest
  | _ => noMatch

/-- output_formatter.py _is_unknown_file. -/
def is_unknown_file (loc : List Char) : Bool :=
  if loc.isEmpty then true
  else listStartsWith (pyStrip loc) "??".data

/-- First 0x-and-hex-run occurrence anywhere in the string (search semantics). -/
def searchHex : List Char → Option (List Char)
  | [] => none
  | '0' :: 'x' :: t =>
    let hex := t.takeWhile isHexChar
    if hex.isEmpty then searchHex ('x' :: t) else some ('0' :: 'x' :: hex)
  | _ :: t => searchHex t

/-- output_formatter.py _normalize_offset. -/
def normalize_offset : Option String → Option String
  | none => none
  | some s => if s.isEmpty then none else (searchHex s.data).map String.mk

/-- output_formatter.py _build_elf_hint. -/
def build_elf_hint (f : SymbolizedFrame) : Option String :=
  if !optTruthy f.obj_path then none
  else
    let p := f.obj_path.getD ""
    let base :=
      match normalize_offset f.obj_offset with
      | some off => "(" ++ p ++ "+" ++ off ++ ")"
      | none => "(" ++ p ++ ")"
    if optTruthy f.build_id then some (base ++ " (BuildId: " ++ f.build_id.getD "" ++ ")")
    else some base

/-- Empty strings fall back to the unknown marker (the or-questionmarks idiom). -/
def orQQ (s : String) : String := if s.isEmpty then "??" else s

/-- The numbered lines of the second and later inline entries of one frame. -/
def inlineRest (indent addr : String) : Nat → List (String × String) → List String
  | _, [] => []
  | i, (fn, fl) :: rest =>
    (indent ++ "#" ++ toString i ++ " " ++ addr ++ " in " ++ orQQ fn ++ " at " ++ orQQ fl)
      :: inlineRest indent addr (i + 1) rest

/-- The lines emitted for one frame at running index i
(the loop body of format_symbolized_trace). -/
def formatFrame (f : SymbolizedFrame) (i : Nat) : List String :=
  let raw := f.raw_line.data
  let indent := String.mk (leading_indent raw)
  if !raw.isEmpty && looks_fully_symbolized raw then
    [String.mk (rewrite_raw_line_with_index raw i)]
  else if !optTruthy f.obj_path && f.inlines.isEmpty then
    if !raw.isEmpty then [String.mk (rewrite_raw_line_with_index raw i)]
    else [indent ++ "#" ++ toString i ++ " " ++ f.address ++ " in ?? at ??"]
  else
    match f.inlines with
    | [] =>
      let line := indent ++ "#" ++ toString i ++ " " ++ f.address ++ " in ?? at ??"
      match build_elf_hint f with
      | some h => [line ++ " " ++ h]
      | none => [line]
    | (func0, fl0) :: restInl =>
      let func1 := orQQ func0
      let fl1 := orQQ fl0
      let hint_for_first := if is_unknown_file fl1.data then build_elf_hint f else none
      let first := indent ++ "#" ++ toString i ++ " " ++ f.address ++ " in " ++ func1
        ++ " at " ++ fl1
      let first2 := match hint_for_first with | some h => first ++ " " ++ h | none => first
      first2 :: inlineRest indent f.address (i + 1) restInl

/-- Sequential numbering across frames: each frame consumes as many indices as it
emits lines. -/
def formatFrames : List SymbolizedFrame → Nat → List String
  | [], _ => []
  | f :: fs, i =>
    let ls := formatFrame f i
    ls ++ formatFrames fs (i + ls.length)

/-- output_formatter.py format_symbolized_trace, including the closing blank line. -/
def format_symbolized_trace (t : SymbolizedTrace) (include_preamble : Bool) : List String :=
  (if include_preamble && !t.preamble.isEmpty then t.preamble else [])
    ++ formatFrames t.frames 0 ++ [""]

/-! Merge engine (src/qms3/merge_original.py).

The original file is a list of lines as read (trailing newlines immaterial to
the comparison, which strips them on both sides); the result is the list of
output line contents. -/

/-- merge_original.py _normalize_line. -/
def normalizeLine (s : String) : String :=
  String.mk (rstripChars (fun c => c = '\n' || c = '\r') s.data)

/-- The anchor scan: lines copied before the anchor, and the suffix starting at
the first line whose normalization equals the anchor, if any. -/
def splitAtAnchor : List String → String → List String × Option (List String)
  | [], _ => ([], none)
  | l :: ls, anchor =>
    if normalizeLine l = anchor then ([], some (l :: ls))
    else
      let r := splitAtAnchor ls anchor
      (l :: r.1, r.2)

/-- The per-trace loop of merge_original_file: on a missing anchor the rest is
copied and the remaining traces are abandoned; on a hit, as many original
lines as the trace has source frames are skipped and the rendered trace is
spliced in. -/
def mergeTraces : List String → List SymbolizedTrace → List String
  | rem, [] => rem
  | rem, t :: ts =>
    match t.frames with
    | [] => mergeTraces rem ts
    | f0 :: _ =>
      let first_raw := normalizeLine f0.raw_line
      if first_raw.isEmpty then mergeTraces rem ts
      else
        match splitAtAnchor rem first_raw with
        | (before, none) => before
        | (before, some suffix) =>
          before ++ format_symbolized_trace t false
            ++ mergeTraces (suffix.drop t.frames.length) ts

/-- merge_original_file restricted to its text transformation
(file reading and writing stripped). -/
def merge_original_lines (original : List String) (ts : List SymbolizedTrace) : List String :=
  mergeTraces original ts

/-! Debug-elf finder (src/qms3/FindDebugElfsforMain.py).

Filesystem interaction — existence, symlink inspection, file size, realpath
(which consults symlinks on disk), ELF magic sniffing and build-id extraction
via readelf or pyelftools — is a record of oracles. Pure posixpath string
functions (split, join, relpath, normpath) are implemented directly. -/

def strStartsWith (s pre : String) : Bool := listStartsWith s.data pre.data

def isAbsPath (p : String) : Bool := strStartsWith p "/"

/-- posixpath split at the last slash; the head keeps no trailing slashes
unless it consists of slashes only. -/
def os_split (p : String) : String × String :=
  let revCs := p.data.reverse
  let tail := (revCs.takeWhile (fun c => c ≠ '/')).reverse
  let headAll := (revCs.dropWhile (fun c => c ≠ '/')).reverse
  let headStripped := rstripChars (fun c => c = '/') headAll
  (String.mk (if headStripped.isEmpty then headAll else headStripped), String.mk tail)

/-- posixpath join of two components. -/
def osJoin (a b : String) : String :=
  if isAbsPath b then b
  else if a.isEmpty then b
  else if a.data.getLast? = some '/' then a ++ b
  else a ++ "/" ++ b

/-- Split a character list on a separator character (posixpath split on slash). -/
def splitOnChar (sep : Char) : List Char → List (List Char)
  | [] => [[]]
  | c :: t =>
    let r := splitOnChar sep t
    if c = sep then [] :: r
    else
      match r with
      | [] => [[c]]
      | w :: ws => (c :: w) :: ws

/-- Nonempty, non-dot components of a path. -/
def pathComponents (p : String) : List String :=
  ((splitOnChar '/' p.data).map String.mk).filter (fun s => !s.isEmpty && s ≠ ".")

/-- Drop the common leading components of two component lists. -/
def dropCommon : List String → List String → List String × List String
  | a :: as2, b :: bs2 =>
    if a = b then dropCommon as2 bs2 else (a :: as2, b :: bs2)
  | as2, bs2 => (as2, bs2)

/-- posixpath relpath for absolute arguments (the only way it is invoked here). -/
def relpath (path start : String) : String :=
  let pr := dropCommon (pathComponents path) (pathComponents start)
  let parts := (pr.2.map (fun _ => "..")) ++ pr.1
  if parts.isEmpty then "." else String.intercalate "/" parts

/-- FindDebugElfsforMain.py to_rootfs_rel. -/
def to_rootfs_rel (rootfs abs_path : String) : String :=
  let rel := relpath abs_path rootfs
  if isAbsPath rel then rel else "/" ++ rel

/-- posixpath normpath: drop empty and dot components, resolve dot-dot
(the two-leading-slashes special case is not modelled). -/
def normpath (p : String) : String :=
  let absFlag := isAbsPath p
  let step := fun (acc : List String) (c : String) =>
    if c.isEmpty || c = "." then acc
    else if c = ".." then
      if absFlag then (if acc.isEmpty then acc else acc.dropLast)
      else
        match acc.getLast? with
        | some l => if l = ".." then acc ++ [c] else acc.dropLast
        | none => acc ++ [c]
    else acc ++ [c]
  let body := String.intercalate "/"
    (((splitOnChar '/' p.data).map String.mk).foldl step [])
  if absFlag then (if body.isEmpty then "/" else "/" ++ body)
  else (if body.isEmpty then "." else body)

/-- FindDebugElfsforMain.py normalize_inside_rootfs. -/
def normalize_inside_rootfs (rootfs_real p : String) : String :=
  if isAbsPath p then osJoin rootfs_real (lstripSlashes p)
  else osJoin rootfs_real p

structure FS where
  pathExists : String → Bool
  lexists : String → Bool
  islink : String → Bool
  readlink : String → Option String
  getsize : String → Option Int
  realpath : String → String
  isElf : String → Bool
  buildId : String → Option String

structure NameCand where
  kind : String
  rel : String
  priority : Int
deriving DecidableEq

/-- FindDebugElfsforMain.py generate_name_based_candidates. -/
def generate_name_based_candidates (real_rel : String) : List NameCand :=
  let dirBase := os_split real_rel
  let base := dirBase.2
  let c1 : NameCand := ⟨"same-dir", dirBase.1 ++ "/" ++ base ++ ".debug", 1⟩
  let c2 : NameCand := ⟨"overlay", "/usr/lib/debug" ++ real_rel ++ ".debug", 2⟩
  let c3 : List NameCand :=
    if strStartsWith real_rel "/usr/" then
      [⟨"overlay-no-usr", "/usr/lib/debug" ++ String.mk (real_rel.data.drop 4) ++ ".debug", 2⟩]
    else []
  let c4 : List NameCand :=
    if strStartsWith real_rel "/usr/lib64/" || strStartsWith real_rel "/lib64/" then
      [⟨"tizen-lib64", "/usr/lib/debug/lib64.tizen-debug/" ++ base ++ ".debug", 2⟩]
    else []
  [c1, c2] ++ c3 ++ c4

/-- FindDebugElfsforMain.py generate_buildid_candidates (the two branches of the
length test in the source produce the same split, so it is unconditional). -/
def generate_buildid_candidates (build_id : String) (debug_roots : List String) : List String :=
  let first2 := String.mk (build_id.data.take 2)
  let restId := String.mk (build_id.data.drop 2)
  debug_roots.map (fun root => osJoin (osJoin root first2) (restId ++ ".debug"))

/-- FindDebugElfsforMain.py resolve_buildid_candidate: returns the resolved
debug path (realpath applied) or none. -/
def resolve_buildid_candidate (fs : FS) (rootfs_real candAbs : String) : Option String :=
  if !fs.lexists candAbs then none
  else
    let debug_abs : Option String :=
      if fs.islink candAbs then
        match fs.readlink candAbs with
        | none => none
        | some target =>
          if isAbsPath target then some (osJoin rootfs_real (lstripSlashes target))
          else some (normpath (osJoin (os_split candAbs).1 target))
      else some candAbs
    match debug_abs with
    | none => none
    | some d => if !fs.pathExists d then none else some (fs.realpath d)

structure Candidate where
  kind : String
  priority : Int
  abs : String
  rel : String
  via : String
  size : Int
deriving DecidableEq

structure DebugResult where
  main_abs : String
  main_rel : String
  is_elf : Bool
  build_id : Option String
  candidates : List Candidate
  best : Option Candidate
deriving DecidableEq

def getsizeOr (fs : FS) (p : String) : Int := (fs.getsize p).getD (-1)

/-- Replace the value of k in an insertion-ordered association list. -/
def assocSet (u : List (String × Candidate)) (k : String) (v : Candidate) :
    List (String × Candidate) :=
  match u with
  | [] => [(k, v)]
  | (k2, v2) :: rest => if k2 = k then (k2, v) :: rest else (k2, v2) :: assocSet rest k v

/-- The dedup-by-realpath loop of find_debug_for_main: the first candidate for
a real path wins unless a later one has strictly higher priority, or equal
priority and strictly larger size. -/
def dedupByRealAbs (fs : FS) (cands : List Candidate) : List Candidate :=
  (cands.foldl (fun (u : List (String × Candidate)) c =>
    let real_abs := fs.realpath c.abs
    match lookupAssoc u real_abs with
    | none => u ++ [(real_abs, c)]
    | some old =>
      if c.priority > old.priority || (c.priority = old.priority && c.size > old.size)
      then assocSet u real_abs c else u) []).map (fun p => p.2)

/-- The best-candidate loop of find_debug_for_main: lexicographic maximum on
(priority, size), earlier candidates winning ties. -/
def pickBest (cands : List Candidate) : Option Candidate :=
  cands.foldl (fun best c =>
    match best with
    | none => some c
    | some b =>
      if c.priority > b.priority then some c
      else if c.priority = b.priority && c.size > b.size then some c
      else some b) none

/-- FindDebugElfsforMain.py find_debug_for_main. -/
def find_debug_for_main (fs : FS) (rootfs_real main_path : String)
    (debug_roots : List String) : DebugResult :=
  let main_abs0 :=
    if isAbsPath main_path then osJoin rootfs_real (lstripSlashes main_path)
    else osJoin rootfs_real main_path
  if !fs.pathExists main_abs0 then ⟨main_abs0, "", false, none, [], none⟩
  else
    let main_abs := fs.realpath main_abs0
    let main_rel := to_rootfs_rel rootfs_real main_abs
    if !fs.isElf main_abs then ⟨main_abs, main_rel, false, none, [], none⟩
    else
      match fs.buildId main_abs with
      | none => ⟨main_abs, main_rel, true, none, [], none⟩
      | some build_id =>
        if build_id.isEmpty then ⟨main_abs, main_rel, true, none, [], none⟩
        else
          let cands1 := (generate_name_based_candidates main_rel).filterMap (fun nc =>
            let debug_abs := normalize_inside_rootfs rootfs_real nc.rel
            if fs.pathExists debug_abs then
              let real_abs := fs.realpath debug_abs
              some (⟨nc.kind, nc.priority, real_abs, to_rootfs_rel rootfs_real real_abs,
                nc.kind, getsizeOr fs debug_abs⟩ : Candidate)
            else none)
          let debug_roots_abs := debug_roots.map (normalize_inside_rootfs rootfs_real)
          let cands2 := (generate_buildid_candidates build_id debug_roots_abs).filterMap
            (fun bcAbs =>
              match resolve_buildid_candidate fs rootfs_real bcAbs with
              | none => none
              | some debug_abs =>
                let real_abs := fs.realpath debug_abs
                some (⟨"buildid", 3, real_abs, to_rootfs_rel rootfs_real real_abs,
                  "buildid", getsizeOr fs debug_abs⟩ : Candidate))
          let final_candidates := dedupByRealAbs fs (cands1 ++ cands2)
          ⟨main_abs, main_rel, true, some build_id, final_candidates,
            pickBest final_candidates⟩

/-! Persistent symbol cache (src/quick_multi_symbolizer.py, SQLite part).

The symbols table is a list of rows; the primary key on (orig_elf, offset),
combined with INSERT OR IGNORE, makes the write-back an insert-if-absent. -/

structure CacheRow where
  orig_elf : String
  offset : String
  func : String
  loc : String
deriving DecidableEq

def rowKeyMatches (r : CacheRow) (elf off : String) : Bool :=
  r.orig_elf = elf && r.offset = off

/-- Row lookup by primary key. -/
def lookupStore (store : List CacheRow) (elf off : String) : Option CacheRow :=
  store.find? (fun r => rowKeyMatches r elf off)

/-- One INSERT OR IGNORE statement against the symbols table. -/
def insert_or_ignore (store : List CacheRow) (r : CacheRow) : List CacheRow :=
  if store.any (fun s => rowKeyMatches s r.orig_elf r.offset) then store else store ++ [r]

/-- quick_multi_symbolizer.py save_new_cache_entries: executemany of
INSERT OR IGNORE over the rows built from the new cache dictionary. -/
def save_new_cache_entries (store : List CacheRow)
    (new_cache : List ((String × String) × (String × String))) : List CacheRow :=
  (new_cache.map (fun p => (⟨p.1.1, p.1.2, p.2.1, p.2.2⟩ : CacheRow))).foldl
    insert_or_ignore store

/-! Log rewriting (src/quick_multi_symbolizer.py, transform_text).

The stack-entry pattern is open paren, slash, a lazy nonempty run of
non-plus characters, plus, 0x, greedy hex, close paren. Because the path
body cannot contain the plus sign, the lazy quantifier admits exactly one
candidate split — the run up to the first plus — so matching is
deterministic. -/

/-- Match of the stack-entry pattern at the current position: path body after
the slash, offset digits after 0x, and the remainder after the close paren. -/
def matchStackEntry : List Char → Option (List Char × List Char × List Char)
  | '(' :: '/' :: t =>
    if (t.takeWhile (fun c => c ≠ '+')).isEmpty then none
    else
      match t.dropWhile (fun c => c ≠ '+') with
      | '+' :: '0' :: 'x' :: t2 =>
        if (t2.takeWhile isHexChar).isEmpty then none
        else
          match t2.dropWhile isHexChar with
          | ')' :: rest3 => some (t.takeWhile (fun c => c ≠ '+'), t2.takeWhile isHexChar, rest3)
          | _ => none
      | _ => none
  | _ => none

/-- Python str.split with no argument: maximal nonempty non-whitespace runs. -/
def pySplitWs : List Char → List (List Char)
  | [] => []
  | c :: t =>
    if pyWhitespace c then pySplitWs t
    else (c :: t.takeWhile (fun x => !pyWhitespace x))
      :: pySplitWs (t.dropWhile (fun x => !pyWhitespace x))
termination_by l => l.length
decreasing_by
  · simp
  · simp
    exact Nat.lt_succ_of_le (List.dropWhile_sublist _).length_le

/-- The space-join-split whitespace normalization applied to the path group. -/
def normalizeWs (s : List Char) : String :=
  String.intercalate " " ((pySplitWs s).map String.mk)

/-- Lookup in the in-memory symbol cache keyed by (normalized path, offset). -/
def lookupKV (cache : List ((String × String) × (String × String)))
    (k : String × String) : Option (String × String) :=
  (cache.find? (fun p => p.1 = k)).map (fun p => p.2)

/-- The scanning loop of re.sub for the stack-entry pattern: each match is
replaced by the value rep computes (the original matched text on a cache
miss, the annotated form on a hit), scanning resumes after the match. -/
def transformGo (cache : List ((String × String) × (String × String))) :
    List Char → List Char
  | [] => []
  | c :: t =>
    match h : matchStackEntry (c :: t) with
    | none => c :: transformGo cache t
    | some (body, digits, rest) =>
      let normalized := normalizeWs ('/' :: body)
      let off := String.mk ('0' :: 'x' :: digits)
      let repl :=
        match lookupKV cache (normalized, off) with
        | none => '(' :: '/' :: body ++ '+' :: '0' :: 'x' :: digits ++ [')']
        | some fl =>
          ("(" ++ normalized ++ "+" ++ off ++ " -> " ++ fl.1 ++ " " ++ fl.2 ++ ")").data
      repl ++ transformGo cache rest
termination_by l => l.length
decreasing_by
  · simp
  · simp only [List.length_cons]
    unfold matchStackEntry at h
    split at h
    case _ t0 heq0 =>
      injection heq0 with hc ht
      subst ht
      split at h
      · exact absurd h (by simp)
      · split at h
        case _ t2 heq =>
          split at h
          · exact absurd h (by simp)
          · split at h
            case _ rest3 heq2 =>
              simp only [Option.some.injEq, Prod.mk.injEq] at h
              obtain ⟨hb, hd, hr⟩ := h
              have h1 : (t2.dropWhile isHexChar).length ≤ t2.length :=
                (List.dropWhile_sublist _).length_le
              have h2 : (t0.dropWhile (fun c => c ≠ '+')).length ≤ t0.length :=
                (List.dropWhile_sublist _).length_le
              rw [heq2] at h1
              rw [heq] at h2
              rw [← hr]
              simp at h1 h2 ⊢
              omega
            case _ => exact absurd h (by simp)
        case _ => exact absurd h (by simp)
    case _ => exact absurd h (by simp)

/-- quick_multi_symbolizer.py transform_text. -/
def transform_text (text : String)
    (cache : List ((String × String) × (String × String))) : String :=
  String.mk (transformGo cache text.data)

/-! Specification devices used by the theorems below. -/

/-- The raw frame lines of a symbolized trace, in order. -/
def rawLines (t : SymbolizedTrace) : List String := t.frames.map (fun f => f.raw_line)

/-- A contiguous layout of an original file: alternating non-trace segments and
the raw frame-line blocks of the traces, with each anchor nonempty and not
occurring in the segment scanned before it. This is the merge contract stated
by the docstring of merge_original.py (frames contiguous in the original log,
one frame per original line). -/
def goodLayout : List (List String) → List SymbolizedTrace → Bool
  | [_], [] => true
  | p :: ps, t :: ts =>
    (match t.frames with
     | [] => false
     | f0 :: _ =>
       let a := normalizeLine f0.raw_line
       !a.isEmpty && p.all (fun l => !(normalizeLine l == a)) && goodLayout ps ts)
  | _, _ => false

/-- The original file induced by a layout: segments interleaved with raw frame
lines. -/
def buildOriginal : List (List String) → List SymbolizedTrace → List String
  | [], _ => []
  | [p], [] => p
  | p :: ps, t :: ts => p ++ rawLines t ++ buildOriginal ps ts
  | p :: _ :: _, [] => p

/-- The expected merge of a layout: segments interleaved with the rendered
traces. -/
def buildMerged : List (List String) → List SymbolizedTrace → List String
  | [], _ => []
  | [p], [] => p
  | p :: ps, t :: ts => p ++ format_symbolized_trace t false ++ buildMerged ps ts
  | p :: _ :: _, [] => p

/-- A frame whose resolution attempt fails: either no on-disk elf was found, or
it was batched to the backend and the backend offers no result (or an empty
frame list) for its address. Cached and info-less frames are excluded. -/
def cannotResolve (fs : String → Bool) (backend : Backend) (cache : A2LCache)
    (rootfs debug_root : String) (disps : List Disp) (f : Frame) : Prop :=
  match dispOf fs cache rootfs debug_root f with
  | .noInfo => False
  | .noElf => True
  | .cached _ => False
  | .grouped ek dk elf dbg addr =>
    backend elf dbg (groupAddrs disps ek dk) addr = none ∨
    backend elf dbg (groupAddrs disps ek dk) addr = some (A2LResult.mk [])

/-- A fabricated filesystem for concrete checks: one main elf whose build-id
tree holds a small debug file while a larger same-directory sibling and a
larger overlay file also exist; no symlinks; realpath is the identity. -/
def demoFS : FS :=
  ⟨fun p => p = "/R/usr/lib64/libfoo.so" || p = "/R/usr/lib64/libfoo.so.debug" ||
      p = "/R/usr/lib/debug/usr/lib64/libfoo.so.debug" ||
      p = "/R/usr/lib/debug/.build-id/aa/0d6e0011223344.debug",
    fun p => p = "/R/usr/lib64/libfoo.so" || p = "/R/usr/lib64/libfoo.so.debug" ||
      p = "/R/usr/lib/debug/usr/lib64/libfoo.so.debug" ||
      p = "/R/usr/lib/debug/.build-id/aa/0d6e0011223344.debug",
    fun _ => false, fun _ => none,
    fun p => if p = "/R/usr/lib64/libfoo.so.debug" then some 500
      else if p = "/R/usr/lib/debug/usr/lib64/libfoo.so.debug" then some 200
      else if p = "/R/usr/lib/debug/.build-id/aa/0d6e0011223344.debug" then some 50
      else none,
    fun p => p, fun p => p = "/R/usr/lib64/libfoo.so",
    fun _ => some "aa0d6e0011223344"⟩

/-- The build-id candidate demoFS produces. -/
def demoBidCand : Candidate :=
  ⟨"buildid", 3, "/R/usr/lib/debug/.build-id/aa/0d6e0011223344.debug",
    "/usr/lib/debug/.build-id/aa/0d6e0011223344.debug", "buildid", 50⟩

/-- The same-directory candidate demoFS produces (larger than the winner). -/
def demoSameDirCand : Candidate :=
  ⟨"same-dir", 1, "/R/usr/lib64/libfoo.so.debug", "/usr/lib64/libfoo.so.debug",
    "same-dir", 500⟩

/-- The (normalized path, offset) keys the scan of transform_text looks up,
in scan order. -/
def stackKeys : List Char → List (String × String)
  | [] => []
  | c :: t =>
    match h : matchStackEntry (c :: t) with
    | none => stackKeys t
    | some (body, digits, rest) =>
      (normalizeWs ('/' :: body), String.mk ('0' :: 'x' :: digits)) :: stackKeys rest
termination_by l => l.length
decreasing_by
  · simp
  · simp only [List.length_cons]
    unfold matchStackEntry at h
    split at h
    case _ t0 heq0 =>
      injection heq0 with hc ht
      subst ht
      split at h
      · exact absurd h (by simp)
      · split at h
        case _ t2 heq =>
          split at h
          · exact absurd h (by simp)
          · split at h
            case _ rest3 heq2 =>
              simp only [Option.some.injEq, Prod.mk.injEq] at h
              obtain ⟨hb, hd, hr⟩ := h
              have h1 : (t2.dropWhile isHexChar).length ≤ t2.length :=
                (List.dropWhile_sublist _).length_le
              have h2 : (t0.dropWhile (fun c => c ≠ '+')).length ≤ t0.length :=
                (List.dropWhile_sublist _).length_le
              rw [heq2] at h1
              rw [heq] at h2
              rw [← hr]
              simp at h1 h2 ⊢
              omega
            case _ => exact absurd h (by simp)
        case _ => exact absurd h (by simp)
    case _ => exact absurd h (by simp)

/-! Theorems. General helper lemmas come first, then the per-claim theorems
with their witnesses and counterexamples. -/

theorem flushCurrentTrace_nonempty (st : ParseState)
    (h : ∀ t ∈ st.traces, t.frames ≠ []) :
    ∀ t ∈ (flushCurrentTrace st).traces, t.frames ≠ [] := by
  unfold flushCurrentTrace
  split
  · exact h
  · rename_i hne
    intro t ht
    rw [List.mem_append] at ht
    rcases ht with ht | ht
    · exact h t ht
    · rw [List.mem_singleton] at ht
      subst ht
      simpa using hne

theorem parseStep_nonempty (st : ParseState) (l : String)
    (h : ∀ t ∈ st.traces, t.frames ≠ []) :
    ∀ t ∈ (parseStep st l).traces, t.frames ≠ [] := by
  simp only [parseStep]
  split
  · split
    · simpa using h
    · exact h
  · split
    · simpa using flushCurrentTrace_nonempty st h
    · split
      · simpa using h
      · simpa using h

theorem foldl_parseStep_nonempty (ls : List String) (st : ParseState)
    (h : ∀ t ∈ st.traces, t.frames ≠ []) :
    ∀ t ∈ (ls.foldl parseStep st).traces, t.frames ≠ [] := by
  induction ls generalizing st with
  | nil => exact h
  | cons x xs ih => exact ih (parseStep st x) (parseStep_nonempty st x h)

/-- C9: every StackTrace returned by parse_stack_lines has a nonempty frames
list — a trace is only emitted once at least one frame was accumulated. -/
theorem parse_stack_lines_frames_nonempty (lines : List String) (t : StackTrace)
    (ht : t ∈ parse_stack_lines lines) : t.frames ≠ [] := by
  unfold parse_stack_lines at ht
  exact flushCurrentTrace_nonempty _
    (foldl_parseStep_nonempty lines ⟨[], -1, [], [], []⟩ (by simp)) t ht

/-- Witness for C9 at a concrete one-line input. -/
theorem parse_stack_lines_frames_nonempty_witness :
    (⟨0, [⟨0, 0, "0x1", none, none, none, "#0 0x1"⟩], []⟩ : StackTrace)
      ∈ parse_stack_lines ["#0 0x1"] ∧
    (⟨0, [⟨0, 0, "0x1", none, none, none, "#0 0x1"⟩], []⟩ : StackTrace).frames ≠ [] :=
  ⟨by decide, parse_stack_lines_frames_nonempty ["#0 0x1"] _ (by decide)⟩

theorem splitAtAnchor_not_found (ls : List String) (a : String)
    (h : ∀ l ∈ ls, normalizeLine l ≠ a) : splitAtAnchor ls a = (ls, none) := by
  induction ls with
  | nil => rfl
  | cons x xs ih =>
    unfold splitAtAnchor
    rw [if_neg (by exact h x (by simp))]
    rw [ih (fun l hl => h l (by simp [hl]))]

/-- C7: if the first-frame raw line of a trace cannot be found among the
remaining original lines, merging stops at that trace: the remaining lines
are all copied unchanged and the later traces are not merged at all. -/
theorem merge_anchor_missing (rem : List String) (t : SymbolizedTrace)
    (ts : List SymbolizedTrace) (f0 : SymbolizedFrame) (fs : List SymbolizedFrame)
    (hframes : t.frames = f0 :: fs)
    (hne : normalizeLine f0.raw_line ≠ "")
    (hmiss : ∀ l ∈ rem, normalizeLine l ≠ normalizeLine f0.raw_line) :
    mergeTraces rem (t :: ts) = rem := by
  have hsplit := splitAtAnchor_not_found rem (normalizeLine f0.raw_line) hmiss
  unfold mergeTraces
  rw [hframes]
  dsimp only
  rw [if_neg (by simpa [String.isEmpty_iff] using hne), hsplit]

/-- Witness for C7 at a concrete input. -/
theorem merge_anchor_missing_witness :
    mergeTraces ["a", "b"]
      [⟨0, [⟨0, 0, "0x99", [("??", "??:0")], "#0 0x99 (/nope.so+0x1)",
        some "/nope.so", some "0x1", none⟩], []⟩,
       ⟨1, [⟨1, 0, "0x1", [("??", "??:0")], "a", none, none, none⟩], []⟩] = ["a", "b"] :=
  merge_anchor_missing ["a", "b"] _ _ _ _ rfl (by decide) (by decide)

theorem find?_append_some {α : Type} (l1 l2 : List α) (p : α → Bool) (a : α)
    (h : l1.find? p = some a) : (l1 ++ l2).find? p = some a := by
  induction l1 with
  | nil => simp at h
  | cons x xs ih =>
    rw [List.cons_append]
    cases hx : p x
    · rw [List.find?_cons_of_neg _ (by simp [hx])] at h
      rw [List.find?_cons_of_neg _ (by simp [hx])]
      exact ih h
    · rw [List.find?_cons_of_pos _ hx] at h
      rw [List.find?_cons_of_pos _ hx]
      exact h

theorem foldl_insert_or_ignore_extends (rows : List CacheRow) (store : List CacheRow) :
    ∀ acc : List CacheRow,
      (∀ r ∈ acc, lookupStore store r.orig_elf r.offset = none) →
      ∃ extra, rows.foldl insert_or_ignore (store ++ acc) = store ++ extra ∧
        ∀ r ∈ extra, lookupStore store r.orig_elf r.offset = none := by
  induction rows with
  | nil => exact fun acc hacc => ⟨acc, rfl, hacc⟩
  | cons x xs ih =>
    intro acc hacc
    rw [List.foldl_cons]
    unfold insert_or_ignore
    split
    · exact ih acc hacc
    · rename_i hany
      rw [List.append_assoc]
      apply ih (acc ++ [x])
      intro r hr
      rcases List.mem_append.mp hr with hr | hr
      · exact hacc r hr
      · rw [List.mem_singleton] at hr
        subst hr
        unfold lookupStore
        rw [List.find?_eq_none]
        intro y hy
        intro hmatch
        apply hany
        rw [List.any_eq_true]
        exact ⟨y, List.mem_append.mpr (Or.inl hy), hmatch⟩

/-- C8: saving newly computed entries into the persisted symbol store is
insert-if-absent: every key already present keeps its original row, and the
store only grows by rows whose keys were not present before. -/
theorem save_new_cache_entries_insert_if_absent (store : List CacheRow)
    (nc : List ((String × String) × (String × String))) :
    (∀ elf off r, lookupStore store elf off = some r →
      lookupStore (save_new_cache_entries store nc) elf off = some r) ∧
    ∃ extra, save_new_cache_entries store nc = store ++ extra ∧
      ∀ r ∈ extra, lookupStore store r.orig_elf r.offset = none := by
  have hmain := foldl_insert_or_ignore_extends
    (nc.map (fun p => (⟨p.1.1, p.1.2, p.2.1, p.2.2⟩ : CacheRow))) store [] (by simp)
  rw [List.append_nil] at hmain
  obtain ⟨extra, heq, hextra⟩ := hmain
  constructor
  · intro elf off r h
    unfold save_new_cache_entries
    rw [heq]
    unfold lookupStore at h ⊢
    exact find?_append_some store extra _ r h
  · exact ⟨extra, heq, hextra⟩

/-- Witness for C8: an existing row survives a save that tries to overwrite its
key, while a fresh key is inserted. -/
theorem save_new_cache_entries_witness :
    lookupStore (save_new_cache_entries
        [⟨"/usr/lib64/libfoo.so", "0x10", "old_func", "old.c:1"⟩]
        [(("/usr/lib64/libfoo.so", "0x10"), ("new_func", "new.c:2")),
         (("/usr/lib64/libbar.so", "0x20"), ("bar_func", "bar.c:3"))])
      "/usr/lib64/libfoo.so" "0x10" =
      some ⟨"/usr/lib64/libfoo.so", "0x10", "old_func", "old.c:1"⟩ :=
  (save_new_cache_entries_insert_if_absent _ _).1 _ _ _ (by decide)

theorem matchStackEntry_shape (cs body digits rest : List Char)
    (h : matchStackEntry cs = some (body, digits, rest)) :
    cs = '(' :: '/' :: body ++ '+' :: '0' :: 'x' :: digits ++ ')' :: rest := by
  unfold matchStackEntry at h
  split at h
  case _ t =>
    have hsplit : t.takeWhile (fun c => c ≠ '+') ++ t.dropWhile (fun c => c ≠ '+') = t :=
      List.takeWhile_append_dropWhile _ _
    split at h
    · exact absurd h (by simp)
    · split at h
      case _ t2 heq =>
        have hsplit2 : t2.takeWhile isHexChar ++ t2.dropWhile isHexChar = t2 :=
          List.takeWhile_append_dropWhile _ _
        split at h
        · exact absurd h (by simp)
        · split at h
          case _ rest3 heq2 =>
            simp only [Option.some.injEq, Prod.mk.injEq] at h
            obtain ⟨hb, hd, hr⟩ := h
            have h1 : t = body ++ '+' :: '0' :: 'x' :: t2 := by
              rw [← hsplit, heq, hb]
            have h2 : t2 = digits ++ ')' :: rest := by
              rw [← hsplit2, heq2, hd, hr]
            simp [h1, h2]
          case _ => exact absurd h (by simp)
      case _ => exact absurd h (by simp)
  case _ => exact absurd h (by simp)

theorem stackKeys_cons_none (c : Char) (t : List Char)
    (hm : matchStackEntry (c :: t) = none) : stackKeys (c :: t) = stackKeys t := by
  rw [stackKeys]
  split
  · rfl
  · rename_i body digits rest heq
    rw [hm] at heq
    exact absurd heq (by simp)

theorem stackKeys_cons_some (c : Char) (t body digits rest : List Char)
    (hm : matchStackEntry (c :: t) = some (body, digits, rest)) :
    stackKeys (c :: t) =
      (normalizeWs ('/' :: body), String.mk ('0' :: 'x' :: digits)) :: stackKeys rest := by
  rw [stackKeys]
  split
  · rename_i heq
    rw [hm] at heq
    exact absurd heq (by simp)
  · rename_i body2 digits2 rest2 heq
    rw [hm] at heq
    simp only [Option.some.injEq, Prod.mk.injEq] at heq
    obtain ⟨hb, hd, hr⟩ := heq
    rw [hb, hd, hr]

theorem transformGo_all_miss (cache : List ((String × String) × (String × String))) :
    ∀ (n : Nat) (cs : List Char), cs.length ≤ n →
      (∀ k ∈ stackKeys cs, lookupKV cache k = none) →
      transformGo cache cs = cs := by
  intro n
  induction n with
  | zero =>
    intro cs hlen _
    have hnil : cs = [] := List.eq_nil_of_length_eq_zero (Nat.le_zero.mp hlen)
    subst hnil
    rw [transformGo]
  | succ n ih =>
    intro cs hlen hk
    match cs with
    | [] => rw [transformGo]
    | c :: t =>
      rw [transformGo]
      split
      case _ hm =>
        rw [stackKeys_cons_none c t hm] at hk
        rw [ih t (by simp at hlen; omega) hk]
      case _ body digits rest hm =>
        have hshape := matchStackEntry_shape _ _ _ _ hm
        rw [stackKeys_cons_some c t body digits rest hm] at hk
        have hmiss := hk (normalizeWs ('/' :: body), String.mk ('0' :: 'x' :: digits))
          (by simp)
        simp only [hmiss]
        have hrest : transformGo cache rest = rest := by
          apply ih rest _ (fun k hk2 => hk k (by simp [hk2]))
          have : rest.length < (c :: t).length := by
            rw [hshape]
            simp
            omega
          omega
        rw [hrest, hshape]
        simp

/-- C10: transform_text returns its input unchanged whenever the symbol cache
contains no key equal to a whitespace-normalized (path, offset) pair occurring
in the text — in particular for the empty cache. -/
theorem transform_text_all_miss_id (text : String)
    (cache : List ((String × String) × (String × String)))
    (h : ∀ k ∈ stackKeys text.data, lookupKV cache k = none) :
    transform_text text cache = text := by
  unfold transform_text
  rw [transformGo_all_miss cache text.data.length text.data (Nat.le_refl _) h]

/-- Witness for C10: a text with a matching stack entry is untouched under the
empty cache. -/
theorem transform_text_all_miss_id_witness :
    transform_text "pre (/usr/lib64/libfoo.so+0x1fdb8) post" [] =
      "pre (/usr/lib64/libfoo.so+0x1fdb8) post" :=
  transform_text_all_miss_id _ [] (fun _ _ => rfl)

theorem candDom_trans (a b c : Candidate)
    (h1 : a.priority ≤ b.priority ∧ (a.priority = b.priority → a.size ≤ b.size))
    (h2 : b.priority ≤ c.priority ∧ (b.priority = c.priority → b.size ≤ c.size)) :
    a.priority ≤ c.priority ∧ (a.priority = c.priority → a.size ≤ c.size) := by
  obtain ⟨a1, a2⟩ := h1
  obtain ⟨b1, b2⟩ := h2
  refine ⟨le_trans a1 b1, fun he => ?_⟩
  have hab : a.priority = b.priority := by omega
  have hbc : b.priority = c.priority := by omega
  have := a2 hab
  have := b2 hbc
  omega

theorem pickBest_go (cands : List Candidate) : ∀ b0 : Candidate,
    ∃ b, cands.foldl (fun best c =>
        match best with
        | none => some c
        | some b =>
          if c.priority > b.priority then some c
          else if c.priority = b.priority && c.size > b.size then some c
          else some b) (some b0) = some b ∧
      (b = b0 ∨ b ∈ cands) ∧
      (b0.priority ≤ b.priority ∧ (b0.priority = b.priority → b0.size ≤ b.size)) ∧
      ∀ c ∈ cands, c.priority ≤ b.priority ∧ (c.priority = b.priority → c.size ≤ b.size) := by
  induction cands with
  | nil => exact fun b0 => ⟨b0, rfl, Or.inl rfl, ⟨le_refl _, fun _ => le_refl _⟩, by simp⟩
  | cons x xs ih =>
    intro b0
    rw [List.foldl_cons]
    dsimp only
    by_cases hgt : x.priority > b0.priority
    · rw [if_pos hgt]
      obtain ⟨b, hfold, hmem, hdom, hall⟩ := ih x
      refine ⟨b, hfold, ?_, ?_, ?_⟩
      · rcases hmem with h | h
        · exact Or.inr (by simp [h])
        · exact Or.inr (by simp [h])
      · exact candDom_trans b0 x b ⟨by omega, fun h => by omega⟩ hdom
      · intro c hc
        rcases List.mem_cons.mp hc with h | h
        · subst h
          exact hdom
        · exact hall c h
    · rw [if_neg hgt]
      by_cases heq : x.priority = b0.priority ∧ x.size > b0.size
      · rw [if_pos (by simp [heq.1, heq.2])]
        obtain ⟨b, hfold, hmem, hdom, hall⟩ := ih x
        refine ⟨b, hfold, ?_, ?_, ?_⟩
        · rcases hmem with h | h
          · exact Or.inr (by simp [h])
          · exact Or.inr (by simp [h])
        · exact candDom_trans b0 x b ⟨by omega, fun h => by omega⟩ hdom
        · intro c hc
          rcases List.mem_cons.mp hc with h | h
          · subst h
            exact hdom
          · exact hall c h
      · have hcond : ¬(x.priority = b0.priority && x.size > b0.size) = true := by
          simp only [Bool.and_eq_true, decide_eq_true_eq]
          intro hx
          exact heq ⟨hx.1, by exact_mod_cast hx.2⟩
        rw [if_neg hcond]
        obtain ⟨b, hfold, hmem, hdom, hall⟩ := ih b0
        refine ⟨b, hfold, ?_, hdom, ?_⟩
        · rcases hmem with h | h
          · exact Or.inl h
          · exact Or.inr (by simp [h])
        · intro c hc
          rcases List.mem_cons.mp hc with h | h
          · subst h
            refine candDom_trans c b0 b ⟨by omega, fun hp => ?_⟩ hdom
            by_contra hs
            exact heq ⟨hp, by omega⟩
          · exact hall c h

/-- pickBest returns a member maximizing (priority, size) lexicographically. -/
theorem pickBest_spec (cands : List Candidate) (b : Candidate)
    (h : pickBest cands = some b) :
    b ∈ cands ∧
      ∀ c ∈ cands, c.priority ≤ b.priority ∧ (c.priority = b.priority → c.size ≤ b.size) := by
  match cands with
  | [] => exact absurd h (by simp [pickBest])
  | x :: xs =>
    unfold pickBest at h
    rw [List.foldl_cons] at h
    obtain ⟨b2, hfold, hmem, hdom, hall⟩ := pickBest_go xs x
    rw [hfold] at h
    injection h with h
    subst h
    refine ⟨?_, ?_⟩
    · rcases hmem with h | h
      · exact List.mem_cons.mpr (Or.inl h)
      · exact List.mem_cons.mpr (Or.inr h)
    · intro c hc
      rcases List.mem_cons.mp hc with h | h
      · subst h
        exact hdom
      · exact hall c h

theorem assocSet_values (u : List (String × Candidate)) (k : String) (v : Candidate) :
    ∀ p ∈ assocSet u k v, p.2 = v ∨ p ∈ u := by
  induction u with
  | nil =>
    intro p hp
    simp [assocSet] at hp
    simp [hp]
  | cons q qs ih =>
    intro p hp
    unfold assocSet at hp
    split at hp
    · rcases List.mem_cons.mp hp with h | h
      · simp [h]
      · exact Or.inr (List.mem_cons.mpr (Or.inr h))
    · rcases List.mem_cons.mp hp with h | h
      · exact Or.inr (List.mem_cons.mpr (Or.inl h))
      · rcases ih p h with h2 | h2
        · exact Or.inl h2
        · exact Or.inr (List.mem_cons.mpr (Or.inr h2))

theorem dedupByRealAbs_pres (P : Candidate → Prop) (fs : FS) (l : List Candidate)
    (hP : ∀ c ∈ l, P c) : ∀ c ∈ dedupByRealAbs fs l, P c := by
  unfold dedupByRealAbs
  suffices hmain : ∀ (l2 : List Candidate) (u : List (String × Candidate)),
      (∀ p ∈ u, P p.2) → (∀ c ∈ l2, P c) →
      ∀ p ∈ l2.foldl (fun (u : List (String × Candidate)) c =>
          let real_abs := fs.realpath c.abs
          match lookupAssoc u real_abs with
          | none => u ++ [(real_abs, c)]
          | some old =>
            if c.priority > old.priority || (c.priority = old.priority && c.size > old.size)
            then assocSet u real_abs c else u) u, P p.2 by
    intro c hc
    rw [List.mem_map] at hc
    obtain ⟨p, hp, hpc⟩ := hc
    rw [← hpc]
    exact hmain l [] (by simp) hP p hp
  intro l2
  induction l2 with
  | nil => exact fun u hu _ => hu
  | cons x xs ih =>
    intro u hu hl
    rw [List.foldl_cons]
    have hx : P x := hl x (by simp)
    have hxs : ∀ c ∈ xs, P c := fun c hc => hl c (by simp [hc])
    apply ih _ _ hxs
    dsimp only
    split
    · intro p hp
      rcases List.mem_append.mp hp with h | h
      · exact hu p h
      · rw [List.mem_singleton] at h
        subst h
        exact hx
    · split
      · intro p hp
        rcases assocSet_values u _ x p hp with h | h
        · rw [h]
          exact hx
        · exact hu p h
      · exact hu

theorem generate_name_based_candidates_classes (rel : String) :
    ∀ nc ∈ generate_name_based_candidates rel,
      (nc.priority = 1 ∧ nc.kind = "same-dir") ∨
      (nc.priority = 2 ∧ nc.kind ≠ "buildid" ∧ nc.kind ≠ "same-dir") := by
  intro nc h
  unfold generate_name_based_candidates at h
  by_cases h3 : strStartsWith rel "/usr/" = true
  · by_cases h4 : (strStartsWith rel "/usr/lib64/" || strStartsWith rel "/lib64/") = true
    · simp [h3, h4] at h
      rcases h with h | h | h | h <;> subst h <;> simp
    · simp [h3, h4] at h
      rcases h with h | h | h <;> subst h <;> simp
  · by_cases h4 : (strStartsWith rel "/usr/lib64/" || strStartsWith rel "/lib64/") = true
    · simp [h3, h4] at h
      rcases h with h | h | h <;> subst h <;> simp
    · simp [h3, h4] at h
      rcases h with h | h <;> subst h <;> simp

theorem find_debug_candidates_classes (fs : FS) (rootfs main : String)
    (droots : List String) :
    ∀ c ∈ (find_debug_for_main fs rootfs main droots).candidates,
      (c.priority = 3 ↔ c.kind = "buildid") ∧ (c.priority = 1 → c.kind = "same-dir") ∧
      (c.priority = 1 ∨ c.priority = 2 ∨ c.priority = 3) := by
  simp only [find_debug_for_main]
  split
  all_goals
    split
    · simp
    · split
      · simp
      · split
        · simp
        · split
          · simp
          · dsimp only
            apply dedupByRealAbs_pres
            intro c hc
            rcases List.mem_append.mp hc with h | h
            · rw [List.mem_filterMap] at h
              obtain ⟨nc, hnc, heq⟩ := h
              rcases generate_name_based_candidates_classes _ nc hnc with ⟨hp, hk⟩ | ⟨hp, hk⟩
              · split at heq
                · injection heq with heq
                  subst heq
                  simp [hp, hk]
                · exact absurd heq (by simp)
              · split at heq
                · injection heq with heq
                  subst heq
                  show (nc.priority = 3 ↔ nc.kind = "buildid") ∧
                    (nc.priority = 1 → nc.kind = "same-dir") ∧
                    (nc.priority = 1 ∨ nc.priority = 2 ∨ nc.priority = 3)
                  refine ⟨⟨fun h2 => ?_, fun h2 => ?_⟩, fun h2 => ?_, ?_⟩
                  · rw [hp] at h2
                    exact absurd h2 (by decide)
                  · exact absurd h2 hk.1
                  · rw [hp] at h2
                    exact absurd h2 (by decide)
                  · rw [hp]
                    simp
                · exact absurd heq (by simp)
            · rw [List.mem_filterMap] at h
              obtain ⟨bcAbs, hbc, heq⟩ := h
              split at heq
              · exact absurd heq (by simp)
              · injection heq with heq
                subst heq
                simp

theorem find_debug_best_eq_pick (fs : FS) (rootfs main : String) (droots : List String) :
    (find_debug_for_main fs rootfs main droots).best =
      pickBest (find_debug_for_main fs rootfs main droots).candidates := by
  simp only [find_debug_for_main]
  split
  all_goals
    split
    · rfl
    · split
      · rfl
      · split
        · rfl
        · split
          · rfl
          · rfl

/-- C3: the debug candidate chosen as best by find_debug_for_main always comes
from the highest priority class present — the build-id tree (priority 3) beats
the name-based overlays (priority 2), which beat the same-directory candidate
(priority 1) — regardless of file sizes across classes; file size only breaks
ties inside one priority class. -/
theorem find_debug_best_selection (fs : FS) (rootfs main : String)
    (droots : List String) (b : Candidate)
    (hb : (find_debug_for_main fs rootfs main droots).best = some b) :
    b ∈ (find_debug_for_main fs rootfs main droots).candidates ∧
    (∀ c ∈ (find_debug_for_main fs rootfs main droots).candidates,
      c.priority ≤ b.priority ∧ (c.priority = b.priority → c.size ≤ b.size)) ∧
    (∀ c ∈ (find_debug_for_main fs rootfs main droots).candidates,
      (c.priority = 3 ↔ c.kind = "buildid") ∧ (c.priority = 1 → c.kind = "same-dir") ∧
      (c.priority = 1 ∨ c.priority = 2 ∨ c.priority = 3)) ∧
    (∀ c ∈ (find_debug_for_main fs rootfs main droots).candidates,
      c.kind = "buildid" → b.kind = "buildid") := by
  rw [find_debug_best_eq_pick] at hb
  obtain ⟨hmem, hall⟩ := pickBest_spec _ b hb
  have hcls := find_debug_candidates_classes fs rootfs main droots
  refine ⟨hmem, hall, hcls, ?_⟩
  intro c hc hk
  have hc3 : c.priority = 3 := (hcls c hc).1.mpr hk
  have hble : c.priority ≤ b.priority := (hall c hc).1
  have hbrange := (hcls b hmem).2.2
  have hb3 : b.priority = 3 := by omega
  exact (hcls b hmem).1.mp hb3

/-- Witness for C3: on demoFS the larger same-directory candidate is dominated
by the chosen build-id candidate in priority, despite being ten times its
size. -/
theorem find_debug_best_selection_witness :
    demoSameDirCand.priority ≤ demoBidCand.priority ∧
      (demoSameDirCand.priority = demoBidCand.priority →
        demoSameDirCand.size ≤ demoBidCand.size) :=
  (find_debug_best_selection demoFS "/R" "/usr/lib64/libfoo.so"
    ["/usr/lib/debug/.build-id"] demoBidCand (by decide)).2.1
    demoSameDirCand (by decide)

theorem enumFrom_getElem? {α : Type} (l : List α) : ∀ (i j : Nat),
    (enumFrom i l)[j]? = (l[j]?).map (fun a => (i + j, a)) := by
  induction l with
  | nil =>
    intro i j
    simp [enumFrom]
  | cons x xs ih =>
    intro i j
    match j with
    | 0 => simp [enumFrom]
    | j + 1 =>
      rw [show enumFrom i (x :: xs) = (i, x) :: enumFrom (i + 1) xs from rfl]
      rw [List.getElem?_cons_succ, List.getElem?_cons_succ]
      rw [ih (i + 1) j]
      have harith : i + 1 + j = i + (j + 1) := by omega
      rw [harith]

/-- The result frame at position i of symbolize_trace, in terms of the input
frame there and its disposition. -/
theorem symbolize_trace_getElem? (fs : String → Bool) (backend : Backend)
    (cache : A2LCache) (trace : StackTrace) (tidx : Nat) (rootfs debug_root : String)
    (i : Nat) (f : Frame) (hf : trace.frames[i]? = some f) :
    (symbolize_trace fs backend cache trace tidx rootfs debug_root).frames[i]? =
      some
        { trace_index := tidx
          frame_index := i
          address := f.address
          inlines := frameResult backend
            (trace.frames.map (dispOf fs cache rootfs debug_root))
            (dispOf fs cache rootfs debug_root f)
          raw_line := f.raw_line
          obj_path := f.obj_path
          obj_offset := f.obj_offset
          build_id := f.build_id } := by
  unfold symbolize_trace
  dsimp only
  rw [List.getElem?_map, enumFrom_getElem?, hf]
  simp

/-- C2 (amended): every frame that carries some object information (path,
offset or build-id) whose resolution attempt fails — no on-disk elf, or the
batched backend returns nothing or an empty list for its address — comes back
with inlines exactly the single unknown entry, never an empty list. -/
theorem symbolize_unresolved_unknown (fs : String → Bool) (backend : Backend)
    (cache : A2LCache) (trace : StackTrace) (tidx : Nat) (rootfs debug_root : String)
    (i : Nat) (f : Frame)
    (hf : trace.frames[i]? = some f)
    (hun : cannotResolve fs backend cache rootfs debug_root
      (trace.frames.map (dispOf fs cache rootfs debug_root)) f) :
    ((symbolize_trace fs backend cache trace tidx rootfs debug_root).frames[i]?).map
      (fun sf => sf.inlines) = some [("??", "??:0")] := by
  rw [symbolize_trace_getElem? fs backend cache trace tidx rootfs debug_root i f hf]
  dsimp only [Option.map]
  unfold cannotResolve at hun
  split at hun
  · exact absurd hun (by simp)
  case _ hdisp =>
    rw [hdisp]
    rfl
  case _ inl hdisp => exact absurd hun (by simp)
  case _ ek dk elf dbg addr hdisp =>
    rw [hdisp]
    simp only [frameResult]
    rcases hun with hb | hb
    · rw [hb]
    · rw [hb]
      simp

/-- Witness for C2 at a concrete frame whose object path has no file under the
rootfs (or the host) and no build-id. -/
theorem symbolize_unresolved_unknown_witness :
    ((symbolize_trace (fun _ => false) (fun _ _ _ _ => none) (fun _ _ _ => none)
        ⟨0, [⟨0, 1, "0xCCC", some "/usr/lib64/libmissing.so", some "0x30", none,
          "#1 0xCCC (/usr/lib64/libmissing.so+0x30)"⟩], []⟩
        0 "/R" "/D").frames[0]?).map (fun sf => sf.inlines) = some [("??", "??:0")] :=
  symbolize_unresolved_unknown (fun _ => false) (fun _ _ _ _ => none) (fun _ _ _ => none)
    ⟨0, [⟨0, 1, "0xCCC", some "/usr/lib64/libmissing.so", some "0x30", none,
      "#1 0xCCC (/usr/lib64/libmissing.so+0x30)"⟩], []⟩ 0 "/R" "/D" 0
    ⟨0, 1, "0xCCC", some "/usr/lib64/libmissing.so", some "0x30", none,
      "#1 0xCCC (/usr/lib64/libmissing.so+0x30)"⟩ (by decide) (by exact trivial)

/-- Counterexample for C2 as stated: a frame line carrying no object path,
offset or build-id (an already symbolized line) reaches symbolize_trace and
comes back with an empty inlines list, not the single unknown entry. -/
theorem symbolize_noinfo_empty_counterexample :
    (symbolize_all (fun _ => false) (fun _ _ _ _ => none) (fun _ _ _ => none)
        (parse_stack_lines ["#0 0x5 in main at foo.c:1"]) "/R" "/D").map
      (fun t => t.frames.map (fun sf => sf.inlines)) = [[[]]] ∧
    ([] : List (String × String)) ≠ [("??", "??:0")] :=
  ⟨by decide, by decide⟩

/-- C6: when the backend process cannot run at all — every spawn either fails
or exits nonzero — every frame that was batched for the backend (its group
disposition) yields the single unknown entry in the symbolized result. -/
theorem backend_failure_unknown (fsSym fsExe : String → Bool)
    (spawn : List String → Option ProcOut) (cache : A2LCache) (trace : StackTrace)
    (tidx : Nat) (rootfs debug_root : String) (i : Nat) (f : Frame)
    (ek dk elf : String) (dbg : Option String) (addr : String)
    (hf : trace.frames[i]? = some f)
    (hd : dispOf fsSym cache rootfs debug_root f = .grouped ek dk elf dbg addr)
    (hspawn : ∀ cmd, spawn cmd = none ∨ ∃ p, spawn cmd = some p ∧ p.returncode ≠ 0) :
    ((symbolize_trace fsSym (backendOfRunner fsExe spawn) cache trace tidx rootfs
        debug_root).frames[i]?).map (fun sf => sf.inlines) = some [("??", "??:0")] := by
  have hrun : ∀ (addrs : List String) (e : String) (d : Option String),
      run_addr2line_multi fsExe spawn addrs e d true = [] := by
    intro addrs e d
    unfold run_addr2line_multi
    split
    · rfl
    · dsimp only
      rcases hspawn (["addr2line", "-f", "-C", "-i", "-a", "-e",
        _choose_executable fsExe e d true] ++ addrs) with h | ⟨p, hp, hrc⟩
      · rw [h]
      · rw [hp]
        dsimp only
        rw [if_pos hrc]
  rw [symbolize_trace_getElem? fsSym (backendOfRunner fsExe spawn) cache trace tidx
    rootfs debug_root i f hf]
  dsimp only [Option.map]
  rw [hd]
  simp only [frameResult]
  have hbe : backendOfRunner fsExe spawn elf dbg
      (groupAddrs (trace.frames.map (dispOf fsSym cache rootfs debug_root)) ek dk) addr
      = none := by
    unfold backendOfRunner
    rw [hrun]
    rfl
  rw [hbe]

/-- Witness for C6: a frame that resolves to an existing elf but whose backend
spawn always fails degrades to the unknown entry. -/
theorem backend_failure_unknown_witness :
    ((symbolize_trace (fun p => p = "/R/usr/lib64/libok.so")
        (backendOfRunner (fun _ => false) (fun _ => none)) (fun _ _ _ => none)
        ⟨0, [⟨0, 1, "0xAAA", some "/usr/lib64/libok.so", some "0x10", none,
          "#1 0xAAA (/usr/lib64/libok.so+0x10)"⟩], []⟩
        0 "/R" "/D").frames[0]?).map (fun sf => sf.inlines) = some [("??", "??:0")] :=
  backend_failure_unknown (fun p => p = "/R/usr/lib64/libok.so") (fun _ => false)
    (fun _ => none) (fun _ _ _ => none)
    ⟨0, [⟨0, 1, "0xAAA", some "/usr/lib64/libok.so", some "0x10", none,
      "#1 0xAAA (/usr/lib64/libok.so+0x10)"⟩], []⟩ 0 "/R" "/D" 0
    ⟨0, 1, "0xAAA", some "/usr/lib64/libok.so", some "0x10", none,
      "#1 0xAAA (/usr/lib64/libok.so+0x10)"⟩
    "/R/usr/lib64/libok.so" "" "/R/usr/lib64/libok.so" none "0x10"
    (by decide) (by decide) (fun _ => Or.inl rfl)

theorem isFrameLine_false_matchFrameLine_none (l : String) (h : isFrameLine l = false) :
    matchFrameLine (rstripNL l.data) = none := by
  unfold isFrameLine at h
  cases hm : matchFrameLine (rstripNL l.data)
  · rfl
  · rw [hm] at h
    simp at h

theorem parse_frame_line_eq_none (line : List Char) (i : Nat)
    (h : matchFrameLine line = none) : parse_frame_line line i = none := by
  unfold parse_frame_line
  rw [h]

theorem parseStep_nonframe (st : ParseState) (l : String) (h : isFrameLine l = false)
    (hcf : st.current_frames = []) :
    parseStep st l =
      { st with pending_preamble :=
          st.pending_preamble ++ [String.mk (rstripNL l.data)] } := by
  simp only [parseStep]
  rw [parse_frame_line_eq_none _ _ (isFrameLine_false_matchFrameLine_none l h)]
  dsimp only
  rw [if_pos (by simp [hcf])]

theorem parseStep_nonframe_inside (st : ParseState) (l : String)
    (h : isFrameLine l = false) (hcf : st.current_frames ≠ []) :
    parseStep st l = st := by
  simp only [parseStep]
  rw [parse_frame_line_eq_none _ _ (isFrameLine_false_matchFrameLine_none l h)]
  dsimp only
  rw [if_neg (by simpa using hcf)]

theorem foldl_preamble_accum (pre : List String) :
    ∀ st : ParseState, (∀ l ∈ pre, isFrameLine l = false) → st.current_frames = [] →
    pre.foldl parseStep st =
      { st with pending_preamble :=
          st.pending_preamble ++ pre.map (fun l => String.mk (rstripNL l.data)) } := by
  induction pre with
  | nil =>
    intro st _ _
    simp
  | cons x xs ih =>
    intro st hnf hcf
    rw [List.foldl_cons]
    rw [parseStep_nonframe st x (hnf x (by simp)) hcf]
    rw [ih _ (fun l hl => hnf l (by simp [hl])) (by simp [hcf])]
    simp

theorem flushCurrentTrace_of_empty (st : ParseState) (h : st.current_frames = []) :
    flushCurrentTrace st = st := by
  unfold flushCurrentTrace
  rw [if_pos (by simp [h])]

theorem flushCurrentTrace_traces_of_ne (st : ParseState) (h : st.current_frames ≠ []) :
    (flushCurrentTrace st).traces = st.traces ++
      [⟨st.current_trace_index.toNat, st.current_frames, st.current_preamble⟩] := by
  unfold flushCurrentTrace
  rw [if_neg (by simpa using h)]

theorem foldl_preamble_inv (rest : List String) :
    ∀ (st : ParseState) (P : List String),
      st.pending_preamble = [] → st.current_frames ≠ [] → 0 ≤ st.current_trace_index →
      (st.traces = [] ∧ st.current_preamble = P ∨
        ∃ t0 ts, st.traces = t0 :: ts ∧ t0.preamble = P ∧
          (∀ t2 ∈ ts, t2.preamble = []) ∧ st.current_preamble = []) →
      ∃ t0 ts, (flushCurrentTrace (rest.foldl parseStep st)).traces = t0 :: ts ∧
        t0.preamble = P ∧ ∀ t2 ∈ ts, t2.preamble = [] := by
  induction rest with
  | nil =>
    intro st P hpend hcf hcti hphase
    rw [List.foldl_nil, flushCurrentTrace_traces_of_ne st hcf]
    rcases hphase with ⟨htr, hcp⟩ | ⟨t0, ts, htr, ht0, hts, hcp⟩
    · exact ⟨⟨st.current_trace_index.toNat, st.current_frames, st.current_preamble⟩, [],
        by simp [htr], by simp [hcp], by simp⟩
    · refine ⟨t0, ts ++ [⟨st.current_trace_index.toNat, st.current_frames,
        st.current_preamble⟩], by simp [htr], ht0, ?_⟩
      intro t2 ht2
      rcases List.mem_append.mp ht2 with h | h
      · exact hts t2 h
      · rw [List.mem_singleton] at h
        subst h
        simp [hcp]
  | cons x xs ih =>
    intro st P hpend hcf hcti hphase
    rw [List.foldl_cons]
    by_cases hfl : isFrameLine x = false
    · rw [parseStep_nonframe_inside st x hfl hcf]
      exact ih st P hpend hcf hcti hphase
    · have hsome : ∃ fm, matchFrameLine (rstripNL x.data) = some fm := by
        unfold isFrameLine at hfl
        cases hm : matchFrameLine (rstripNL x.data)
        · rw [hm] at hfl
          simp at hfl
        · exact ⟨_, rfl⟩
      obtain ⟨fm, hfm⟩ := hsome
      have hsome2 : ∀ i, ∃ fr, parse_frame_line (rstripNL x.data) i = some fr := by
        intro i
        unfold parse_frame_line
        rw [hfm]
        exact ⟨_, rfl⟩
      obtain ⟨fr, hfr⟩ := hsome2
        (if 0 ≤ st.current_trace_index then st.current_trace_index.toNat else 0)
      by_cases h0 : fr.frame_index = 0
      · have hstep : parseStep st x =
            { flushCurrentTrace st with
              current_trace_index := ((flushCurrentTrace st).traces.length : Int)
              current_preamble := st.pending_preamble
              pending_preamble := []
              current_frames :=
                [{ fr with trace_index := (flushCurrentTrace st).traces.length }] } := by
          simp only [parseStep]
          rw [hfr]
          dsimp only
          rw [if_pos h0]
        rw [hstep]
        rcases hphase with ⟨htr, hcp⟩ | ⟨t0, ts, htr, ht0, hts, hcp⟩
        · apply ih _ P (by simp [hpend]) (by simp) (by simp)
          refine Or.inr ⟨⟨st.current_trace_index.toNat, st.current_frames,
            st.current_preamble⟩, [], ?_, by simp [hcp], by simp, by simp [hpend]⟩
          simp [flushCurrentTrace_traces_of_ne st hcf, htr]
        · apply ih _ P (by simp [hpend]) (by simp) (by simp)
          refine Or.inr ⟨t0, ts ++ [⟨st.current_trace_index.toNat, st.current_frames,
            st.current_preamble⟩], ?_, ht0, ?_, by simp [hpend]⟩
          · simp [flushCurrentTrace_traces_of_ne st hcf, htr]
          · intro t2 ht2
            rcases List.mem_append.mp ht2 with h | h
            · exact hts t2 h
            · rw [List.mem_singleton] at h
              subst h
              simp [hcp]
      · have hstep : parseStep st x =
            { st with current_frames := st.current_frames ++ [fr] } := by
          simp only [parseStep]
          rw [hfr]
          dsimp only
          rw [if_neg h0, if_neg (by omega)]
        rw [hstep]
        apply ih _ P (by simp [hpend]) (by simp) (by simp [hcti])
        rcases hphase with ⟨htr, hcp⟩ | ⟨t0, ts, htr, ht0, hts, hcp⟩
        · exact Or.inl ⟨by simp [htr], by simp [hcp]⟩
        · exact Or.inr ⟨t0, ts, by simp [htr], ht0, hts, by simp [hcp]⟩

/-- C4 (amended): non-frame lines before the first frame line of the input are
preserved verbatim (modulo the trailing-newline strip) as the preamble of the
first emitted trace; every non-frame line encountered after a frame line is
dropped by the parser, so all later traces carry an empty preamble. -/
theorem parser_preserves_leading_preamble (pre : List String) (l : String)
    (rest : List String)
    (hpre : ∀ p ∈ pre, isFrameLine p = false) (hl : isFrameLine l = true) :
    ∃ t0 ts, parse_stack_lines (pre ++ l :: rest) = t0 :: ts ∧
      t0.preamble = pre.map (fun s => String.mk (rstripNL s.data)) ∧
      ∀ t2 ∈ ts, t2.preamble = [] := by
  unfold parse_stack_lines
  rw [List.foldl_append, foldl_preamble_accum pre _ hpre rfl, List.foldl_cons]
  have hsome : ∃ fm, matchFrameLine (rstripNL l.data) = some fm := by
    unfold isFrameLine at hl
    cases hm : matchFrameLine (rstripNL l.data)
    · rw [hm] at hl
      simp at hl
    · exact ⟨_, rfl⟩
  obtain ⟨fm, hfm⟩ := hsome
  have hfr : parse_frame_line (rstripNL l.data) 0 = some
      { trace_index := 0, frame_index := fm.frame_index,
        address := String.mk fm.address,
        obj_path := (searchElf fm.rest).map (fun m => String.mk m.elf_path),
        obj_offset := (searchElf fm.rest).map (fun m => String.mk ('0' :: 'x' :: m.offset)),
        build_id := (searchElf fm.rest).bind (fun m => m.build_id.map String.mk),
        raw_line := String.mk (rstripNL (rstripNL l.data)) } := by
    unfold parse_frame_line
    rw [hfm]
  set st1 : ParseState :=
    { traces := [], current_trace_index := -1, current_frames := [],
      current_preamble := [], pending_preamble :=
        [] ++ pre.map (fun s => String.mk (rstripNL s.data)) } with hst1
  set fr : Frame :=
    { trace_index := 0, frame_index := fm.frame_index,
      address := String.mk fm.address,
      obj_path := (searchElf fm.rest).map (fun m => String.mk m.elf_path),
      obj_offset := (searchElf fm.rest).map (fun m => String.mk ('0' :: 'x' :: m.offset)),
      build_id := (searchElf fm.rest).bind (fun m => m.build_id.map String.mk),
      raw_line := String.mk (rstripNL (rstripNL l.data)) } with hfrdef
  have hidx : (if (0:Int) ≤ st1.current_trace_index
      then st1.current_trace_index.toNat else 0) = 0 := by
    rw [hst1]
    simp
  by_cases h0 : fr.frame_index = 0
  · have hstep : parseStep st1 l =
        { st1 with
          current_trace_index := 0
          current_preamble := st1.pending_preamble
          pending_preamble := []
          current_frames := [{ fr with trace_index := 0 }] } := by
      simp only [parseStep]
      rw [hidx, hfr]
      dsimp only
      rw [if_pos h0]
      rw [flushCurrentTrace_of_empty st1 rfl]
      rfl
    rw [hstep]
    apply foldl_preamble_inv rest _ _ rfl (by simp) (by simp)
    exact Or.inl ⟨rfl, by simp [hst1]⟩
  · have hstep : parseStep st1 l =
        { st1 with
          current_trace_index := 0
          current_preamble := st1.pending_preamble
          pending_preamble := []
          current_frames := [{ fr with trace_index := 0 }] } := by
      simp only [parseStep]
      rw [hidx, hfr]
      dsimp only
      rw [if_neg h0, if_pos (by decide)]
      rfl
    rw [hstep]
    apply foldl_preamble_inv rest _ _ rfl (by simp) (by simp)
    exact Or.inl ⟨rfl, by simp [hst1]⟩

/-- Witness for C4 (amended) at a concrete input. -/
theorem parser_preserves_leading_preamble_witness :
    ∃ t0 ts, parse_stack_lines ["boot log", "thread 1", "#0 0x10 (/a.so+0x1)",
        "garbage", "#0 0x20 (/a.so+0x2)"] = t0 :: ts ∧
      t0.preamble = ["boot log", "thread 1"] ∧ ∀ t2 ∈ ts, t2.preamble = [] := by
  have h := parser_preserves_leading_preamble ["boot log", "thread 1"]
    "#0 0x10 (/a.so+0x1)" ["garbage", "#0 0x20 (/a.so+0x2)"]
    (by decide) (by decide)
  simpa using h

/-- Counterexample for C4 as stated: the non-frame line between the two traces
is not attached to the preamble of the following trace; it is discarded by the
parser (and is not the trailing text after the last trace either). -/
theorem parser_drops_interior_nonframe_counterexample :
    (parse_stack_lines ["#0 0x10 (/a.so+0x1)", "LOST LINE",
        "#0 0x20 (/a.so+0x2)"]).map
      (fun t => (t.preamble, t.frames.map (fun fr => fr.raw_line))) =
      [([], ["#0 0x10 (/a.so+0x1)"]), ([], ["#0 0x20 (/a.so+0x2)"])] ∧
    isFrameLine "LOST LINE" = false :=
  ⟨by decide, by decide⟩

theorem optTruthy_some_of_ne {s : String} (h : s.isEmpty = false) :
    optTruthy (some s) = true := by
  simp [optTruthy, h]

/-- C5 (amended): when a frame's resolved inlines are exactly the single
unknown entry, its raw line does not already look fully symbolized, and the
frame carries a nonempty object path, a parsable offset and a nonempty
build-id, the formatter emits one line: the indentation, the running index,
the raw address, the unknown function and location, and the hint
open-paren path plus offset close-paren, space, open-paren BuildId colon
space id close-paren — with capital BuildId and a space after the colon,
not the build-id colon id form the spec claims. -/
theorem format_unknown_frame_hint (f : SymbolizedFrame) (p off b : String)
    (hp : f.obj_path = some p) (hpne : p.isEmpty = false)
    (hoff : normalize_offset f.obj_offset = some off)
    (hb : f.build_id = some b) (hbne : b.isEmpty = false)
    (hinl : f.inlines = [("??", "??:0")])
    (hsym : (!f.raw_line.data.isEmpty && looks_fully_symbolized f.raw_line.data) = false) :
    formatFrame f 0 =
      [String.mk (leading_indent f.raw_line.data) ++ "#" ++ toString (0 : Nat) ++ " "
        ++ f.address ++ " in " ++ "??" ++ " at " ++ "??:0" ++ " "
        ++ ("(" ++ p ++ "+" ++ off ++ ")" ++ " (BuildId: " ++ b ++ ")")] := by
  have hop : optTruthy f.obj_path = true := by
    rw [hp]; exact optTruthy_some_of_ne hpne
  have hbt : optTruthy f.build_id = true := by
    rw [hb]; exact optTruthy_some_of_ne hbne
  have hhint : build_elf_hint f =
      some ("(" ++ p ++ "+" ++ off ++ ")" ++ " (BuildId: " ++ b ++ ")") := by
    simp only [build_elf_hint]
    rw [hop, hoff, hbt, hp, hb]
    simp
  simp only [formatFrame]
  rw [hsym, hinl, hop]
  rw [if_neg (by decide), if_neg (by decide)]
  dsimp only
  rw [show orQQ "??" = "??" from rfl, show orQQ "??:0" = "??:0" from rfl]
  rw [if_pos (by decide)]
  rw [hhint]
  rfl

/-- Witness for C5 (amended) at the concrete frame of the claim, with the
build-id present in the frame metadata. -/
theorem format_unknown_frame_hint_witness :
    formatFrame
      ⟨0, 1, "0x1ffff9de0d58", [("??", "??:0")],
        "#1 0x1ffff9de0d58 (/usr/lib64/libfoo.so+0x1fdb8) (Build-id:aa0d6e0011223344)",
        some "/usr/lib64/libfoo.so", some "0x1fdb8", some "aa0d6e0011223344"⟩ 0 =
      ["#0 0x1ffff9de0d58 in ?? at ??:0 (/usr/lib64/libfoo.so+0x1fdb8) (BuildId: aa0d6e0011223344)"] := by
  rw [format_unknown_frame_hint
    ⟨0, 1, "0x1ffff9de0d58", [("??", "??:0")],
      "#1 0x1ffff9de0d58 (/usr/lib64/libfoo.so+0x1fdb8) (Build-id:aa0d6e0011223344)",
      some "/usr/lib64/libfoo.so", some "0x1fdb8", some "aa0d6e0011223344"⟩
    "/usr/lib64/libfoo.so" "0x1fdb8" "aa0d6e0011223344"
    rfl (by decide) (by decide) rfl (by decide) rfl (by decide)]
  decide

/-- Counterexample for C5 as stated: on the claim's exact input line — whose
build-id marker is lowercase, which the parser's case-sensitive pattern does
not even capture — the full pipeline renders the frame with no build-id hint
at all, not the claimed line ending in the build-id. -/
theorem format_lowercase_buildid_counterexample :
    (symbolize_all (fun _ => false) (fun _ _ _ _ => none) (fun _ _ _ => none)
        (parse_stack_lines
          ["#1 0x1ffff9de0d58 (/usr/lib64/libfoo.so+0x1fdb8) (build-id:aa0d6e0011223344)"])
        "/R" "/D").map (fun t => format_symbolized_trace t true) =
      [["#0 0x1ffff9de0d58 in ?? at ??:0 (/usr/lib64/libfoo.so+0x1fdb8)", ""]] ∧
    "#0 0x1ffff9de0d58 in ?? at ??:0 (/usr/lib64/libfoo.so+0x1fdb8) (build-id:aa0d6e0011223344)"
      ∉ ["#0 0x1ffff9de0d58 in ?? at ??:0 (/usr/lib64/libfoo.so+0x1fdb8)", ""] :=
  ⟨by decide, by decide⟩

theorem splitAtAnchor_found (p : List String) (rest : List String) (x : String)
    (a : String) (hp : ∀ l ∈ p, normalizeLine l ≠ a) (hx : normalizeLine x = a) :
    splitAtAnchor (p ++ x :: rest) a = (p, some (x :: rest)) := by
  induction p with
  | nil =>
    rw [List.nil_append]
    unfold splitAtAnchor
    rw [if_pos hx]
  | cons y ys ih =>
    rw [List.cons_append]
    unfold splitAtAnchor
    rw [if_neg (hp y (by simp))]
    rw [ih (fun l hl => hp l (by simp [hl]))]

theorem mergeTraces_layout (ts : List SymbolizedTrace) (ps : List (List String))
    (hg : goodLayout ps ts = true) :
    mergeTraces (buildOriginal ps ts) ts = buildMerged ps ts := by
  induction ts generalizing ps with
  | nil =>
    rcases ps with _ | ⟨p, _ | ⟨q, rest⟩⟩
    · exact Bool.noConfusion hg
    · rfl
    · exact Bool.noConfusion hg
  | cons t ts' ih =>
    rcases ps with _ | ⟨p, ps'⟩
    · exact Bool.noConfusion hg
    · simp only [goodLayout] at hg
      rcases hft : t.frames with _ | ⟨f0, fs'⟩
      · rw [hft] at hg
        exact Bool.noConfusion hg
      · rw [hft] at hg
        dsimp only at hg
        simp only [Bool.and_eq_true] at hg
        obtain ⟨⟨hA, hB⟩, hC⟩ := hg
        have hp : ∀ l ∈ p, normalizeLine l ≠ normalizeLine f0.raw_line := by
          intro l hl
          have hb := List.all_eq_true.mp hB l hl
          simpa using hb
        have hne : (normalizeLine f0.raw_line).isEmpty = false := by
          simpa using hA
        rw [show buildOriginal (p :: ps') (t :: ts') =
          p ++ rawLines t ++ buildOriginal ps' ts' from by cases ps' <;> rfl]
        rw [show buildMerged (p :: ps') (t :: ts') =
          p ++ format_symbolized_trace t false ++ buildMerged ps' ts' from by cases ps' <;> rfl]
        unfold mergeTraces
        rw [hft]
        dsimp only
        rw [if_neg (by simp [hne])]
        have hraw : rawLines t = f0.raw_line :: fs'.map (fun f => f.raw_line) := by
          rw [rawLines, hft, List.map_cons]
        rw [hraw, List.append_assoc, List.cons_append]
        rw [splitAtAnchor_found p
          (List.map (fun f => f.raw_line) fs' ++ buildOriginal ps' ts')
          f0.raw_line (normalizeLine f0.raw_line) hp rfl]
        dsimp only
        have hdrop :
            (f0.raw_line ::
              (List.map (fun f => f.raw_line) fs' ++ buildOriginal ps' ts')).drop
              (f0 :: fs').length = buildOriginal ps' ts' := by
          rw [List.length_cons, List.drop_succ_cons]
          rw [show fs'.length = (List.map (fun f => f.raw_line) fs').length from by simp]
          exact List.drop_left _ _
        rw [hdrop, ih ps' hC]

theorem goodLayout_flatten_sublist (ts : List SymbolizedTrace)
    (ps : List (List String)) (hg : goodLayout ps ts = true) :
    ps.flatten.Sublist (buildMerged ps ts) := by
  induction ts generalizing ps with
  | nil =>
    rcases ps with _ | ⟨p, _ | ⟨q, rest⟩⟩
    · exact Bool.noConfusion hg
    · simp [buildMerged]
    · exact Bool.noConfusion hg
  | cons t ts' ih =>
    rcases ps with _ | ⟨p, ps'⟩
    · exact Bool.noConfusion hg
    · simp only [goodLayout] at hg
      rcases hft : t.frames with _ | ⟨f0, fs'⟩
      · rw [hft] at hg
        exact Bool.noConfusion hg
      · rw [hft] at hg
        dsimp only at hg
        simp only [Bool.and_eq_true] at hg
        obtain ⟨⟨hA, hB⟩, hC⟩ := hg
        rw [show buildMerged (p :: ps') (t :: ts') =
          p ++ format_symbolized_trace t false ++ buildMerged ps' ts' from by cases ps' <;> rfl]
        rw [show (p :: ps').flatten = p ++ ps'.flatten from rfl]
        rw [List.append_assoc]
        exact (List.Sublist.refl p).append
          ((ih ps' hC).trans (List.sublist_append_right _ _))

/-- C1 (amended): merging is non-destructive exactly for inputs whose frame
blocks are contiguous: when the original file is segments of non-trace lines
interleaved with the contiguous raw frame blocks of the traces, each anchor
nonempty and absent from the segment scanned before it, the merged output is
the same segments interleaved with the rendered traces — every non-trace line
survives verbatim and in order (the segment concatenation is a sublist of the
output). A non-frame line interleaved inside a trace block is dropped instead. -/
theorem merge_layout (ts : List SymbolizedTrace) (ps : List (List String))
    (hg : goodLayout ps ts = true) :
    merge_original_lines (buildOriginal ps ts) ts = buildMerged ps ts ∧
    ps.flatten.Sublist (merge_original_lines (buildOriginal ps ts) ts) := by
  have he : merge_original_lines (buildOriginal ps ts) ts = buildMerged ps ts :=
    mergeTraces_layout ts ps hg
  exact ⟨he, he ▸ goodLayout_flatten_sublist ts ps hg⟩

/-- Witness for C1 (amended) at a concrete two-segment layout. -/
theorem merge_layout_witness :
    merge_original_lines
      (buildOriginal [["hello"], ["bye"]]
        [⟨0, [⟨0, 0, "0x10", [("??", "??:0")], "#0 0x10 (/a/libx.so+0x1)",
          some "/a/libx.so", some "0x1", none⟩], []⟩])
      [⟨0, [⟨0, 0, "0x10", [("??", "??:0")], "#0 0x10 (/a/libx.so+0x1)",
        some "/a/libx.so", some "0x1", none⟩], []⟩] =
      buildMerged [["hello"], ["bye"]]
        [⟨0, [⟨0, 0, "0x10", [("??", "??:0")], "#0 0x10 (/a/libx.so+0x1)",
          some "/a/libx.so", some "0x1", none⟩], []⟩] ∧
    [["hello"], ["bye"]].flatten.Sublist
      (merge_original_lines
        (buildOriginal [["hello"], ["bye"]]
          [⟨0, [⟨0, 0, "0x10", [("??", "??:0")], "#0 0x10 (/a/libx.so+0x1)",
            some "/a/libx.so", some "0x1", none⟩], []⟩])
        [⟨0, [⟨0, 0, "0x10", [("??", "??:0")], "#0 0x10 (/a/libx.so+0x1)",
          some "/a/libx.so", some "0x1", none⟩], []⟩]) :=
  merge_layout
    [⟨0, [⟨0, 0, "0x10", [("??", "??:0")], "#0 0x10 (/a/libx.so+0x1)",
      some "/a/libx.so", some "0x1", none⟩], []⟩]
    [["hello"], ["bye"]] (by decide)

/-- Counterexample for C1 as stated: a non-frame line interleaved between two
frame lines of one trace is dropped by the merge (the trace's frames are not
contiguous in the original, so skipping len frames lines after the anchor
passes over it), and a stale frame line is duplicated after the splice. -/
theorem merge_drops_interleaved_counterexample :
    merge_original_lines
      ["hello", "#0 0x10 (/a/libx.so+0x1)", "JUNK", "#1 0x20 (/a/libx.so+0x2)"]
      (symbolize_all (fun _ => false) (fun _ _ _ _ => none) (fun _ _ _ => none)
        (parse_stack_lines
          ["hello", "#0 0x10 (/a/libx.so+0x1)", "JUNK", "#1 0x20 (/a/libx.so+0x2)"])
        "/R" "/D") =
      ["hello", "#0 0x10 in ?? at ??:0 (/a/libx.so+0x1)",
       "#1 0x20 in ?? at ??:0 (/a/libx.so+0x2)", "", "#1 0x20 (/a/libx.so+0x2)"] ∧
    isFrameLine "JUNK" = false ∧
    "JUNK" ∈ ["hello", "#0 0x10 (/a/libx.so+0x1)", "JUNK", "#1 0x20 (/a/libx.so+0x2)"] ∧
    "JUNK" ∉ ["hello", "#0 0x10 in ?? at ??:0 (/a/libx.so+0x1)",
       "#1 0x20 in ?? at ??:0 (/a/libx.so+0x2)", "", "#1 0x20 (/a/libx.so+0x2)"] :=
  ⟨by decide, by decide, by decide, by decide⟩

end QMS
